import Mathlib

/-!
A shallow embedding of the deduplication engine of this repository
(class Deduplication in src/app/deduplicate.py: deduplicate_records and
_log_formation), together with theorems settling the specification claims.

Modelling conventions:
* A dataframe cell holds a Val: a Python int, a string, or a missing value
  (None/NaN are identified).  pyStr is str()/astype(str).
* A row is an association list from column name to value; a Dataset carries
  the column list of the frame and its ordered rows, indexed by position
  (the default RangeIndex).
* deduplicate_records returns a pair: the caller-visible state of the df
  object after the call (the code mutates the argument in place via
  df[keys] = ..., df["STAGE"] = ..., df["_score"] = ...), and an Except
  value: ok carries (deduped dataset, audit rows), error carries the Python
  exception class raised (ValueError from validation or from the Series
  comparison reason_fn performs when the _score label is duplicated,
  KeyError from column selection with a missing label, TypeError from
  comparing None with an int).
* Series.idxmax picks the first index attaining the maximum; groupby
  iterates groups in sorted key order; DataFrame.merge pairs every left row
  with every right row sharing the merge key, keeping left order.
-/

namespace Dedup

/-- A Python scalar in a dataframe cell: an int, a string, or None/NaN. -/
inductive Val where
  | vint (n : Int)
  | vstr (s : String)
  | vnone
deriving DecidableEq, Repr

/-- Python str() of a cell value, as performed by astype(str). -/
def pyStr : Val → String
  | .vint n => toString n
  | .vstr s => s
  | .vnone => "None"

/-- A dataframe row: association list from column name to value. -/
abbrev Row := List (String × Val)

/-- A tabular dataset: the column names of the frame and the ordered rows. -/
structure Dataset where
  cols : List String
  rows : List Row
deriving DecidableEq, Repr

/-- row.get(col): the value of the column in a row, None when absent. -/
def rowGet (r : Row) (c : String) : Val :=
  match r.find? (fun p => decide (p.1 = c)) with
  | some p => p.2
  | none => .vnone

/-- row.get(col) when the column name may itself be None (line 38-44 uses
row.get on an unconfigured flag: row.get(None) is None). -/
def rowGetOpt (r : Row) (c? : Option String) : Val :=
  match c? with
  | none => .vnone
  | some c => rowGet r c

/-- The dedup_config dictionary (lines 14-17); absent dictionary entries are
None / the empty default. -/
structure Config where
  keys : List String
  flagApply : Option String
  flagAdmit : Option String
  flagCommit : Option String
  flagEnroll : Option String
  funnel_priority : List String
  threshold_for_removing : Option ℚ
deriving DecidableEq, Repr

/-- The Python exception classes the engine can raise. -/
inductive PyErr where
  | valueError (msg : String)
  | keyError
  | typeError
deriving DecidableEq, Repr

instance {ε α : Type} [DecidableEq ε] [DecidableEq α] : DecidableEq (Except ε α) :=
  fun a b =>
    match a, b with
    | .ok x, .ok y => decidable_of_iff (x = y) (by simp)
    | .error e, .error f => decidable_of_iff (e = f) (by simp)
    | .ok _, .error _ => isFalse (by simp)
    | .error _, .ok _ => isFalse (by simp)

/-- Lines 37-47: derive_stage checks the flag columns in the fixed order
ENROLL, COMMIT, ADMIT, APPLY and returns the first stage whose column holds
the integer 1, None otherwise. -/
def derive_stage (cfg : Config) (r : Row) : Option String :=
  if rowGetOpt r cfg.flagEnroll = .vint 1 then some "ENROLL"
  else if rowGetOpt r cfg.flagCommit = .vint 1 then some "COMMIT"
  else if rowGetOpt r cfg.flagAdmit = .vint 1 then some "ADMIT"
  else if rowGetOpt r cfg.flagApply = .vint 1 then some "APPLY"
  else none

/-- Lines 52-53: score_map maps the stage at enumerate position i to
len(funnel_priority) - i (later duplicate entries overwrite earlier ones,
hence the last matching position is used); .map followed by .fillna(0)
sends stages outside the dictionary, and the None stage, to 0. -/
def scoreVal (fp : List String) (st : Option String) : Nat :=
  match st with
  | none => 0
  | some s =>
    match (fp.enum.filter (fun p => decide (p.2 = s))).getLast? with
    | some p => fp.length - p.1
    | none => 0

/-- Python str.strip(): drop leading and trailing whitespace characters. -/
def pyStrip (s : String) : String :=
  ⟨((s.data.dropWhile Char.isWhitespace).reverse.dropWhile Char.isWhitespace).reverse⟩

/-- Line 23: df[keys] = df[keys].apply(lambda x: x.astype(str).str.strip())
turns every value in a key column into its stripped string form. -/
def normRow (keys : List String) (r : Row) : Row :=
  r.map (fun p => if p.1 ∈ keys then (p.1, .vstr (pyStrip (pyStr p.2))) else p)

/-- df[c] = value assignment on one row: overwrite the column in place when
the frame already has it, append it at the end otherwise. -/
def setColRow (c : String) (v : Val) (hasCol : Bool) (r : Row) : Row :=
  if hasCol then r.map (fun p => if p.1 = c then (p.1, v) else p)
  else r ++ [(c, v)]

/-- The STAGE cell value: None or the stage string. -/
def stageVal : Option String → Val
  | none => .vnone
  | some s => .vstr s

/-- Lines 49 and 53 on one (already normalized) row: attach the derived
STAGE and the integer _score. -/
def stagedRow (cfg : Config) (hasStage hasScore : Bool) (r : Row) : Row :=
  setColRow "_score" (.vint (scoreVal cfg.funnel_priority (derive_stage cfg r)))
    hasScore (setColRow "STAGE" (stageVal (derive_stage cfg r)) hasStage r)

/-- df.drop(["STAGE", "_score"], axis=1) on one row. -/
def dropScoring (r : Row) : Row :=
  r.filter (fun p => decide (p.1 ≠ "STAGE") && decide (p.1 ≠ "_score"))

/-- Python truthiness of an optional column name (the "if col" tests on
lines 32 and 72): None and the empty string are falsy. -/
def truthy : Option String → Bool
  | none => false
  | some s => decide (s ≠ "")

/-- The list [col_apply, col_admit, col_commit, col_enroll] of lines 26-29. -/
def flagColList (cfg : Config) : List (Option String) :=
  [cfg.flagApply, cfg.flagAdmit, cfg.flagCommit, cfg.flagEnroll]

/-- Line 72: the configured (truthy) flag column names, in source order. -/
def flag_cols (cfg : Config) : List String :=
  (flagColList cfg).filterMap (fun c? => if truthy c? then c? else none)

/-- Line 32: the configured flag columns absent from the dataset. -/
def missingFlagCols (cfg : Config) (ds : Dataset) : List String :=
  (flag_cols cfg).filter (fun c => decide (c ∉ ds.cols))

/-- Appending a column name to the frame unless already present. -/
def addColName (cols : List String) (c : String) : List String :=
  if c ∈ cols then cols else cols ++ [c]

/-- The columns of the working frame after STAGE and _score are assigned. -/
def workCols (ds : Dataset) : List String :=
  addColName (addColName ds.cols "STAGE") "_score"

/-- The columns of the returned frames (drop STAGE and _score). -/
def outCols (ds : Dataset) : List String :=
  (workCols ds).filter (fun c => decide (c ≠ "STAGE") && decide (c ≠ "_score"))

/-- The rows after line 23 (key columns normalized). -/
def nrows (cfg : Config) (ds : Dataset) : List Row :=
  ds.rows.map (normRow cfg.keys)

/-- The rows of the working frame after lines 23, 49 and 53. -/
def wRows (cfg : Config) (ds : Dataset) : List Row :=
  (nrows cfg ds).map
    (stagedRow cfg (decide ("STAGE" ∈ ds.cols)) (decide ("_score" ∈ ds.cols)))

/-- The derived stage of each record (the STAGE column contents). -/
def stages (cfg : Config) (ds : Dataset) : List (Option String) :=
  (nrows cfg ds).map (derive_stage cfg)

/-- The priority score of each record (the _score column contents). -/
def scores (cfg : Config) (ds : Dataset) : List Nat :=
  (stages cfg ds).map (scoreVal cfg.funnel_priority)

/-- The stage at row position i. -/
def stAt (cfg : Config) (ds : Dataset) (i : Nat) : Option String :=
  (stages cfg ds).getD i none

/-- The score at row position i. -/
def scAt (cfg : Config) (ds : Dataset) (i : Nat) : Nat :=
  (scores cfg ds).getD i 0

/-- The key-column values of each working row: what duplicated(subset=keys)
and groupby(keys) compare. -/
def tuples (cfg : Config) (ds : Dataset) : List (List Val) :=
  (wRows cfg ds).map (fun r => cfg.keys.map (rowGet r))

/-- The key tuple at row position i. -/
def tupAt (cfg : Config) (ds : Dataset) (i : Nat) : List Val :=
  (tuples cfg ds).getD i []

/-- Line 56: dup_mask marks the rows whose key tuple occurs at least twice. -/
def dupB (cfg : Config) (ds : Dataset) (i : Nat) : Bool :=
  decide (2 ≤ (tuples cfg ds).countP (fun t => decide (t = tupAt cfg ds i)))

/-- dup_mask.any(). -/
def hasDupB (cfg : Config) (ds : Dataset) : Bool :=
  (List.range ds.rows.length).any (dupB cfg ds)

/-- The row positions whose key tuple equals t. -/
def grpOf (cfg : Config) (ds : Dataset) (t : List Val) : List Nat :=
  (List.range ds.rows.length).filter (fun j => decide (tupAt cfg ds j = t))

/-- The duplicate group of row i. -/
def grp (cfg : Config) (ds : Dataset) (i : Nat) : List Nat :=
  grpOf cfg ds (tupAt cfg ds i)

/-- The (position, score) pairs of a group, in position order. -/
def pairsOf (cfg : Config) (ds : Dataset) (t : List Val) : List (Nat × Nat) :=
  (grpOf cfg ds t).map (fun j => (j, scAt cfg ds j))

/-- Series.idxmax: the index of the first occurrence of the maximum value
(none on an empty series). -/
def idxmax (l : List (Nat × Nat)) : Option Nat :=
  (l.find? (fun p => l.all (fun q => decide (q.2 ≤ p.2)))).map Prod.fst

/-- Line 71 for one group: the surviving row position of the group of key
tuple t. -/
def survivorOf (cfg : Config) (ds : Dataset) (t : List Val) : Option Nat :=
  idxmax (pairsOf cfg ds t)

/-- Lexicographic comparison of character lists by code point, the Python
string order. -/
def charsLt : List Char → List Char → Bool
  | [], [] => false
  | [], _ :: _ => true
  | _ :: _, [] => false
  | a :: as, b :: bs => if a.val < b.val then true else if a = b then charsLt as bs else false

/-- Python string comparison s < t (code-point lexicographic). -/
def pyStrLt (s t : String) : Bool := charsLt s.data t.data

/-- Lexicographic order on lists of strings, the sort order pandas groupby
uses on (tuples of) group keys. -/
def strLexLt : List String → List String → Bool
  | [], [] => false
  | [], _ :: _ => true
  | _ :: _, [] => false
  | a :: as, b :: bs => if pyStrLt a b then true else if a = b then strLexLt as bs else false

/-- Group-key order on key tuples (string rendering, lexicographic). -/
def tupLt (t u : List Val) : Bool := strLexLt (t.map pyStr) (u.map pyStr)

/-- Insertion into a sorted tuple list. -/
def insertSorted (t : List Val) : List (List Val) → List (List Val)
  | [] => [t]
  | u :: us => if tupLt t u then t :: u :: us else u :: insertSorted t us

/-- Insertion sort by the group-key order. -/
def sortTuples : List (List Val) → List (List Val)
  | [] => []
  | t :: ts => insertSorted t (sortTuples ts)

/-- The distinct key tuples of the duplicate groups. -/
def dupTuples (cfg : Config) (ds : Dataset) : List (List Val) :=
  ((tuples cfg ds).filter
    (fun t => decide (2 ≤ (tuples cfg ds).countP (fun u => decide (u = t))))).dedup

/-- Line 71: keep_idx, one surviving position per duplicate group, in the
sorted group order groupby produces. -/
def keptIdx (cfg : Config) (ds : Dataset) : List Nat :=
  (sortTuples (dupTuples cfg ds)).filterMap (survivorOf cfg ds)

/-- Line 74: to_remove_mask = dup_mask & ~df.index.isin(keep_idx). -/
def toRemoveB (cfg : Config) (ds : Dataset) (i : Nat) : Bool :=
  dupB cfg ds i && !(decide (i ∈ keptIdx cfg ds))

/-- Line 80: the deduped rows, in original order, scoring columns dropped. -/
def dedupedRows (cfg : Config) (ds : Dataset) : List Row :=
  ((List.range ds.rows.length).filter (fun i => !toRemoveB cfg ds i)).map
    (fun i => dropScoring ((wRows cfg ds).getD i []))

/-- The removed row positions, in original order (df.loc[to_remove_mask]). -/
def removedIdx (cfg : Config) (ds : Dataset) : List Nat :=
  (List.range ds.rows.length).filter (toRemoveB cfg ds)

/-- Lines 109-110: the _merge_key of a row, the key values rendered with
astype(str) and joined with the two-bar separator. -/
def joinAt (cfg : Config) (ds : Dataset) (i : Nat) : String :=
  String.intercalate "||" ((tupAt cfg ds i).map pyStr)

/-- One row of the audit dataframe built by _log_formation (the columns
keys + STAGE, STAGE_kept, _score, _score_kept, reason; the key values are
kept as keyVals).  stageKept/scoreKept are none when the left merge found
no partner (NaN cells). -/
structure AuditRow where
  keyVals : List Val
  stage : Val
  score : Nat
  stageKept : Option Val
  scoreKept : Option Nat
  reason : String
deriving DecidableEq, Repr

/-- Lines 117-122: reason_fn compares _score with _score_kept; comparisons
with a missing _score_kept (NaN) are both false. -/
def reasonFor (sc : Nat) (scKept : Option Nat) : String :=
  match scKept with
  | some sk =>
    if sc < sk then "duplicate: lower-priority stage"
    else if sc = sk then "duplicate: same stage, kept first"
    else "duplicate"
  | none => "duplicate"

/-- The kept rows whose merge key equals that of removed row i, in kept
(sorted-group) order: the partners the merge on _merge_key produces. -/
def matchesOf (cfg : Config) (ds : Dataset) (i : Nat) : List Nat :=
  (keptIdx cfg ds).filter (fun j => decide (joinAt cfg ds j = joinAt cfg ds i))

/-- The audit rows produced for one removed row: one per merge partner, or a
single row with NaN kept-columns when the left join found none. -/
def auditRowsFor (cfg : Config) (ds : Dataset) (i : Nat) : List AuditRow :=
  match matchesOf cfg ds i with
  | [] => [{ keyVals := tupAt cfg ds i, stage := stageVal (stAt cfg ds i),
             score := scAt cfg ds i, stageKept := none, scoreKept := none,
             reason := reasonFor (scAt cfg ds i) none }]
  | js => js.map (fun j =>
      { keyVals := tupAt cfg ds i, stage := stageVal (stAt cfg ds i),
        score := scAt cfg ds i, stageKept := some (stageVal (stAt cfg ds j)),
        scoreKept := some (scAt cfg ds j),
        reason := reasonFor (scAt cfg ds i) (some (scAt cfg ds j)) })

/-- The audit rows _log_formation assembles when its column selections are
uniquely labeled: one block of rows per removed record, in removal-mask
order. -/
def auditRows (cfg : Config) (ds : Dataset) : List AuditRow :=
  ((removedIdx cfg ds).map (auditRowsFor cfg ds)).flatten

/-- The _score label clash: when _score is a key column or a configured
flag column, the selections keys + flag_cols + [STAGE, _score] (line 107)
and keys + [STAGE, _score] (line 108) repeat the _score label, so the
row access r[_score] (and, for a key clash, r[_score_kept]) inside
reason_fn yields a Series instead of a scalar. -/
def scoreClash (cfg : Config) : Prop :=
  "_score" ∈ cfg.keys ∨ "_score" ∈ flag_cols cfg

instance (cfg : Config) : Decidable (scoreClash cfg) := by
  unfold scoreClash
  infer_instance

/-- Lines 105-128: _log_formation.  Under the _score label clash the
comparison of line 118 is between Series and raises ValueError (pandas
wording varies between the two clash shapes; one variant is kept here);
otherwise the audit rows are returned. -/
def log_formation (cfg : Config) (ds : Dataset) : Except PyErr (List AuditRow) :=
  if scoreClash cfg then
    .error (.valueError "Can only compare identically-labeled Series objects")
  else .ok (auditRows cfg ds)

/-- Modelled scope for the error taxonomy: key and flag column labels that
keep every other selection of _log_formation uniquely labeled, so that the
only audit-stage failure is the _score clash modelled above.  Reuse of the
bookkeeping labels STAGE, STAGE_kept, _score_kept, _merge_key or reason,
a label repeated inside keys or inside the flag columns, or a label shared
between them, falls outside this embedding (pandas then suffixes or
overwrites columns in ways this model does not follow). -/
def cleanLabels (cfg : Config) : Prop :=
  cfg.keys.Nodup ∧ (flag_cols cfg).Nodup ∧ (∀ k ∈ cfg.keys, k ∉ flag_cols cfg) ∧
    ∀ c ∈ cfg.keys ++ flag_cols cfg,
      c ∉ (["STAGE", "STAGE_kept", "_score_kept", "_merge_key", "reason"] : List String)

instance (cfg : Config) : Decidable (cleanLabels cfg) := by
  unfold cleanLabels
  infer_instance

/-- Lines 8-103: deduplicate_records.  The first component is the state of
the caller-owned dataframe object when the call ends (the in-place column
assignments of lines 23, 49 and 53 are visible to the caller; the drop on
lines 58/80 rebinds the local name only).  The second component is the
returned pair or the exception raised. -/
def deduplicate_records (ds : Dataset) (cfg? : Option Config) :
    Dataset × Except PyErr (Dataset × List AuditRow) :=
  match cfg? with
  | none => (ds, .ok (ds, []))
  | some cfg =>
    if cfg.keys = [] then (ds, .error (.valueError "keys are empty"))
    else if ¬ (∀ k ∈ cfg.keys, k ∈ ds.cols) then (ds, .error .keyError)
    else
      let nds : Dataset := ⟨ds.cols, nrows cfg ds⟩
      if missingFlagCols cfg ds ≠ [] then
        (nds, .error (.valueError ("Dataset has no flag columns: " ++
          String.intercalate ", " (missingFlagCols cfg ds))))
      else
        let wds : Dataset := ⟨workCols ds, wRows cfg ds⟩
        if hasDupB cfg ds = false then
          (wds, .ok (⟨outCols ds, (wRows cfg ds).map dropScoring⟩, []))
        else
          match log_formation cfg ds with
          | .error e => (wds, .error e)
          | .ok aud =>
            match cfg.threshold_for_removing with
            | none => (wds, .error .typeError)
            | some _ => (wds, .ok (⟨outCols ds, dedupedRows cfg ds⟩, aud))

/-- The record as it appears in the returned datasets: key columns
normalized, scoring columns dropped (what the final frames hold). -/
def outputRow (keys : List String) (r : Row) : Row :=
  dropScoring (normRow keys r)

/-- Whether an engine result is a normal return (no exception). -/
def exceptOk (x : Except PyErr (Dataset × List AuditRow)) : Bool :=
  match x with
  | .ok _ => true
  | .error _ => false

/-- The returned (deduped dataset, audit rows) of a successful run; a dummy
pair on an exception. -/
def okResult (x : Except PyErr (Dataset × List AuditRow)) : Dataset × List AuditRow :=
  match x with
  | .ok p => p
  | .error _ => (⟨[], []⟩, [])

/-- Modelled from the spec wording of the Stage Deriver: the fixed
precedence list, highest precedence first. -/
def precedenceOrder : List String := ["ENROLL", "COMMIT", "ADMIT", "APPLY"]

/-- Modelled from the spec wording: the configured flag column of a stage
label. -/
def flagColFor (cfg : Config) (st : String) : Option String :=
  if st = "ENROLL" then cfg.flagEnroll
  else if st = "COMMIT" then cfg.flagCommit
  else if st = "ADMIT" then cfg.flagAdmit
  else if st = "APPLY" then cfg.flagApply
  else none

/-- Modelled from the spec wording of the Stage Deriver contract: the
highest-precedence stage whose configured flag column holds the value 1,
no stage when none matches. -/
def stageSpec (cfg : Config) (r : Row) : Option String :=
  precedenceOrder.find? (fun st => decide (rowGetOpt r (flagColFor cfg st) = .vint 1))

/-- No two duplicate groups share a merge key: the two-bar joined key
strings distinguish distinct key tuples among duplicated rows.  (Always
true with a single key column; violable with several key columns whose
values contain the separator.) -/
def noColl (cfg : Config) (ds : Dataset) : Prop :=
  ∀ i ∈ List.range ds.rows.length, ∀ j ∈ List.range ds.rows.length,
    dupB cfg ds i = true → dupB cfg ds j = true →
    joinAt cfg ds i = joinAt cfg ds j → tupAt cfg ds i = tupAt cfg ds j

instance (cfg : Config) (ds : Dataset) : Decidable (noColl cfg ds) := by
  unfold noColl
  infer_instance

/-- All key columns exist in the frame (otherwise df[keys] raises). -/
def keysPresent (cfg : Config) (ds : Dataset) : Prop :=
  ∀ k ∈ cfg.keys, k ∈ ds.cols

instance (cfg : Config) (ds : Dataset) : Decidable (keysPresent cfg ds) := by
  unfold keysPresent
  infer_instance

/-! Concrete inputs used by the counterexamples and witnesses. -/

/-- A configuration with a single key column and no flags. -/
def cfgKeyOnly : Config :=
  { keys := ["ID"], flagApply := none, flagAdmit := none, flagCommit := none,
    flagEnroll := none, funnel_priority := [], threshold_for_removing := some 2 }

/-- The section-8 scenario configuration of the spec. -/
def cfgFunnel : Config :=
  { keys := ["ID"], flagApply := some "FLAG_APP", flagAdmit := some "FLAG_ADM",
    flagCommit := some "FLAG_CON", flagEnroll := some "FLAG_ENR",
    funnel_priority := ["ENROLL", "COMMIT", "ADMIT", "APPLY"],
    threshold_for_removing := some 2 }

/-- The section-8 scenario dataset: the same ID recorded at APPLY and at
ENROLL. -/
def dsFunnel : Dataset :=
  { cols := ["ID", "FLAG_APP", "FLAG_ADM", "FLAG_CON", "FLAG_ENR"],
    rows := [
      [("ID", .vint 1), ("FLAG_APP", .vint 1), ("FLAG_ADM", .vint 0),
       ("FLAG_CON", .vint 0), ("FLAG_ENR", .vint 0)],
      [("ID", .vint 1), ("FLAG_APP", .vint 0), ("FLAG_ADM", .vint 0),
       ("FLAG_CON", .vint 0), ("FLAG_ENR", .vint 1)]] }

/-- Two records whose keys differ only by surrounding whitespace. -/
def dsTrimDup : Dataset :=
  { cols := ["ID"], rows := [[("ID", .vstr " 1 ")], [("ID", .vstr "1")]] }

/-- A two-key configuration with one APPLY flag. -/
def cfgTwoKeys (f : String) : Config :=
  { keys := ["A", "B"], flagApply := some f, flagAdmit := none,
    flagCommit := none, flagEnroll := none,
    funnel_priority := ["APPLY"], threshold_for_removing := some 50 }

/-- Two duplicate groups whose two-bar joined key strings collide:
("x||y", "z") and ("x", "y||z") both join to "x||y||z". -/
def dsCollide (x y z : String) : Dataset :=
  { cols := ["A", "B", "F"],
    rows := [
      [("A", .vstr (x ++ "||" ++ y)), ("B", .vstr z), ("F", .vint 1)],
      [("A", .vstr (x ++ "||" ++ y)), ("B", .vstr z), ("F", .vint 1)],
      [("A", .vstr x), ("B", .vstr (y ++ "||" ++ z)), ("F", .vint 0)],
      [("A", .vstr x), ("B", .vstr (y ++ "||" ++ z)), ("F", .vint 0)]] }

/-- A single record whose key value carries whitespace. -/
def dsWhite : Dataset := { cols := ["ID"], rows := [[("ID", .vstr " a ")]] }

/-- A dataset without the configured key column. -/
def dsNoKeyCol : Dataset := { cols := ["X"], rows := [[("X", .vstr "1")]] }

/-- A configuration whose key column is absent and whose flag column is
absent as well. -/
def cfgMissingBoth : Config :=
  { keys := ["K"], flagApply := some "F", flagAdmit := none, flagCommit := none,
    flagEnroll := none, funnel_priority := [], threshold_for_removing := some 2 }

/-- A key column named STAGE (clashes with the scoring column the engine
writes). -/
def cfgStageKey : Config :=
  { keys := ["STAGE"], flagApply := none, flagAdmit := none, flagCommit := none,
    flagEnroll := none, funnel_priority := [], threshold_for_removing := some 2 }

/-- A dataset with a STAGE column used as the key. -/
def dsStageKey : Dataset := { cols := ["STAGE"], rows := [[("STAGE", .vstr " x ")]] }

/-- An integer key and a whitespace-padded string key with the same digits. -/
def dsIntStr : Dataset :=
  { cols := ["ID"], rows := [[("ID", .vint 1)], [("ID", .vstr " 1 ")]] }

/-- A single record with whitespace-padded key digits. -/
def dsPad : Dataset := { cols := ["ID"], rows := [[("ID", .vstr " 1 ")]] }

/-- An already normalized two-record dataset without duplicates. -/
def dsClean : Dataset :=
  { cols := ["ID"], rows := [[("ID", .vstr "a")], [("ID", .vstr "b")]] }

/-- Two duplicated records with equal scores. -/
def dsTie : Dataset :=
  { cols := ["ID"], rows := [[("ID", .vstr "k")], [("ID", .vstr "k")]] }

/-- Another duplicated pair with equal scores. -/
def dsTie2 : Dataset :=
  { cols := ["ID"], rows := [[("ID", .vstr "m")], [("ID", .vstr "m")]] }

/-- A single-key configuration with one APPLY flag over column F. -/
def cfgOneFlag : Config :=
  { keys := ["ID"], flagApply := some "F", flagAdmit := none, flagCommit := none,
    flagEnroll := none, funnel_priority := ["APPLY"], threshold_for_removing := some 2 }

/-- A duplicate pair where the first record reached APPLY and the second
did not. -/
def dsOneFlag : Dataset :=
  { cols := ["ID", "F"],
    rows := [[("ID", .vstr "u"), ("F", .vint 1)], [("ID", .vstr "u"), ("F", .vint 0)]] }

/-! General list lemmas used below. -/

theorem find?_split {α : Type} {p : α → Bool} {l : List α} {a : α}
    (h : l.find? p = some a) :
    ∃ l₁ l₂, l = l₁ ++ a :: l₂ ∧ ∀ x ∈ l₁, p x = false := by
  induction l with
  | nil => simp at h
  | cons b t ih =>
    by_cases hb : p b
    · rw [List.find?_cons_of_pos _ hb] at h
      cases h
      exact ⟨[], t, rfl, by simp⟩
    · rw [List.find?_cons_of_neg _ hb] at h
      obtain ⟨l₁, l₂, heq, hl₁⟩ := ih h
      refine ⟨b :: l₁, l₂, by rw [heq]; rfl, ?_⟩
      intro x hx
      rcases List.mem_cons.1 hx with rfl | hx
      · simpa using hb
      · exact hl₁ x hx

theorem exists_max_snd (l : List (Nat × Nat)) (h : l ≠ []) :
    ∃ p ∈ l, ∀ q ∈ l, q.2 ≤ p.2 := by
  induction l with
  | nil => exact absurd rfl h
  | cons a t ih =>
    rcases eq_or_ne t [] with rfl | ht
    · refine ⟨a, by simp, ?_⟩
      intro q hq
      rcases List.mem_cons.1 hq with rfl | hq
      · exact le_refl _
      · simp at hq
    · obtain ⟨m, hm, hmax⟩ := ih ht
      rcases le_or_lt a.2 m.2 with hle | hlt
      · refine ⟨m, List.mem_cons_of_mem _ hm, ?_⟩
        intro q hq
        rcases List.mem_cons.1 hq with rfl | hq
        · exact hle
        · exact hmax q hq
      · refine ⟨a, List.mem_cons_self a t, ?_⟩
        intro q hq
        rcases List.mem_cons.1 hq with rfl | hq
        · exact le_refl _
        · exact (hmax q hq).trans hlt.le

theorem filter_eq_singleton {l : List Nat} {s : Nat} {p : Nat → Bool}
    (hnd : l.Nodup) (hs : s ∈ l) (hps : p s = true)
    (huniq : ∀ x ∈ l, p x = true → x = s) : l.filter p = [s] := by
  induction l with
  | nil => simp at hs
  | cons a t ih =>
    rcases List.mem_cons.1 hs with rfl | hst
    · have ht : t.filter p = [] := by
        apply List.filter_eq_nil_iff.2
        intro x hx hpx
        have : x = s := huniq x (List.mem_cons_of_mem _ hx) hpx
        exact (List.nodup_cons.1 hnd).1 (this ▸ hx)
      rw [List.filter_cons_of_pos hps, ht]
    · have hpa : p a = false := by
        by_contra hpa
        have : a = s := huniq a (List.mem_cons_self a t) (by simpa using hpa)
        exact (List.nodup_cons.1 hnd).1 (this ▸ hst)
      rw [List.filter_cons_of_neg (by simp [hpa])]
      exact ih (List.nodup_cons.1 hnd).2 hst
        (fun x hx hpx => huniq x (List.mem_cons_of_mem _ hx) hpx)

theorem flatten_length_singletons {α β : Type} (l : List α) (f : α → List β)
    (h : ∀ a ∈ l, (f a).length = 1) : ((l.map f).flatten).length = l.length := by
  induction l with
  | nil => simp
  | cons a t ih =>
    simp only [List.map_cons, List.flatten_cons, List.length_append, List.length_cons]
    rw [h a (List.mem_cons_self a t), ih (fun x hx => h x (List.mem_cons_of_mem _ hx))]
    omega

theorem range_map_getD {α β : Type} (l : List α) (f : α → β) (d : α) :
    (List.range l.length).map (fun i => f (l.getD i d)) = l.map f := by
  induction l with
  | nil => simp
  | cons a t ih =>
    rw [List.length_cons, List.range_succ_eq_map, List.map_cons, List.map_map]
    have h2 : ((fun i => f ((a :: t).getD i d)) ∘ Nat.succ)
        = fun i => f (t.getD i d) := by
      funext i
      simp [List.getD_cons_succ]
    rw [h2, ih]
    simp [List.getD_cons_zero]

theorem getD_map_of_lt {α β : Type} (f : α → β) {l : List α} {i : Nat}
    (h : i < l.length) (d : β) (d₀ : α) :
    (l.map f).getD i d = f (l.getD i d₀) := by
  rw [List.getD_eq_getElem?_getD, List.getD_eq_getElem?_getD, List.getElem?_map]
  rw [List.getElem?_eq_getElem h]
  simp [List.getD_eq_getElem _ _ h]

theorem getD_mem_of_lt {α : Type} {l : List α} {i : Nat} (h : i < l.length) (d : α) :
    l.getD i d ∈ l := by
  rw [List.getD_eq_getElem _ _ h]
  exact List.getElem_mem h

theorem snd_mem_enumFrom {α : Type} :
    ∀ {l : List α} {k : Nat} {p : Nat × α}, p ∈ List.enumFrom k l → p.2 ∈ l := by
  intro l
  induction l with
  | nil => intro k p h; simp at h
  | cons a t ih =>
    intro k p h
    rw [List.enumFrom_cons] at h
    rcases List.mem_cons.1 h with rfl | h
    · exact List.mem_cons_self a t
    · exact List.mem_cons_of_mem _ (ih h)

theorem enumFrom_filter_unique {s : String} :
    ∀ (fp : List String) (k i : Nat), fp[i]? = some s → fp.Nodup →
    (List.enumFrom k fp).filter (fun p => decide (p.2 = s)) = [(k + i, s)] := by
  intro fp
  induction fp with
  | nil => intro k i h _; simp at h
  | cons a t ih =>
    intro k i h hnd
    cases i with
    | zero =>
      simp at h
      subst h
      rw [List.enumFrom_cons, List.filter_cons_of_pos (by simp)]
      have htail : (List.enumFrom (k + 1) t).filter (fun p => decide (p.2 = a)) = [] := by
        apply List.filter_eq_nil_iff.2
        intro p hp
        simp only [decide_eq_true_eq]
        intro hpa
        exact (List.nodup_cons.1 hnd).1 (hpa ▸ snd_mem_enumFrom hp)
      rw [htail]
      simp
    | succ i =>
      rw [List.getElem?_cons_succ] at h
      have hst : s ∈ t := by
        have hlt : i < t.length := by
          by_contra hge
          rw [List.getElem?_eq_none (by omega)] at h
          simp at h
        rw [List.getElem?_eq_getElem hlt] at h
        have : t[i] = s := by simpa using h
        exact this ▸ List.getElem_mem hlt
      have has : decide (a = s) = false := by
        simp only [decide_eq_false_iff_not]
        intro heq
        exact (List.nodup_cons.1 hnd).1 (heq ▸ hst)
      rw [List.enumFrom_cons, List.filter_cons_of_neg (by simp [has])]
      rw [ih (k + 1) i h (List.nodup_cons.1 hnd).2]
      have harith : k + 1 + i = k + (i + 1) := by omega
      rw [harith]

/-! Lemmas about the sorting of group keys. -/

theorem insertSorted_perm (t : List Val) (l : List (List Val)) :
    (insertSorted t l).Perm (t :: l) := by
  induction l with
  | nil => exact List.Perm.refl _
  | cons u us ih =>
    unfold insertSorted
    by_cases h : tupLt t u = true
    · simp only [h, if_true]
      exact List.Perm.refl _
    · simp only [h, if_false]
      exact (ih.cons u).trans (List.Perm.swap t u us)

theorem sortTuples_perm (l : List (List Val)) : (sortTuples l).Perm l := by
  induction l with
  | nil => exact List.Perm.refl _
  | cons t ts ih => exact (insertSorted_perm t (sortTuples ts)).trans (ih.cons t)

theorem mem_sortTuples {l : List (List Val)} {t : List Val} :
    t ∈ sortTuples l ↔ t ∈ l :=
  (sortTuples_perm l).mem_iff

theorem sortTuples_nodup {l : List (List Val)} (h : l.Nodup) :
    (sortTuples l).Nodup :=
  (sortTuples_perm l).nodup_iff.2 h

/-! Lemmas about groups and the idxmax selection. -/

theorem tuples_length (cfg : Config) (ds : Dataset) :
    (tuples cfg ds).length = ds.rows.length := by
  simp [tuples, wRows, nrows]

theorem mem_grpOf {cfg : Config} {ds : Dataset} {t : List Val} {j : Nat} :
    j ∈ grpOf cfg ds t ↔ j < ds.rows.length ∧ tupAt cfg ds j = t := by
  simp [grpOf, List.mem_filter, List.mem_range]

theorem grpOf_pairwise (cfg : Config) (ds : Dataset) (t : List Val) :
    (grpOf cfg ds t).Pairwise (· < ·) :=
  (List.pairwise_lt_range _).filter _

theorem grpOf_nodup (cfg : Config) (ds : Dataset) (t : List Val) :
    (grpOf cfg ds t).Nodup :=
  (List.nodup_range _).filter _

theorem pairsOf_pairwise (cfg : Config) (ds : Dataset) (t : List Val) :
    (pairsOf cfg ds t).Pairwise (fun p q => p.1 < q.1) := by
  unfold pairsOf
  exact (List.pairwise_map).2 (grpOf_pairwise cfg ds t)

theorem mem_pairsOf {cfg : Config} {ds : Dataset} {t : List Val} {p : Nat × Nat} :
    p ∈ pairsOf cfg ds t ↔ p.1 ∈ grpOf cfg ds t ∧ p.2 = scAt cfg ds p.1 := by
  unfold pairsOf
  constructor
  · intro hp
    obtain ⟨j, hj, rfl⟩ := List.mem_map.1 hp
    exact ⟨hj, rfl⟩
  · rintro ⟨h1, h2⟩
    apply List.mem_map.2
    exact ⟨p.1, h1, by rw [← h2]⟩

theorem idxmax_spec {cfg : Config} {ds : Dataset} {t : List Val} {j : Nat}
    (h : survivorOf cfg ds t = some j) :
    j ∈ grpOf cfg ds t ∧ (∀ k ∈ grpOf cfg ds t, scAt cfg ds k ≤ scAt cfg ds j) ∧
      (∀ k ∈ grpOf cfg ds t, k < j → scAt cfg ds k < scAt cfg ds j) := by
  unfold survivorOf idxmax at h
  obtain ⟨p, hfind, hj⟩ := Option.map_eq_some'.1 h
  have hpmem : p ∈ pairsOf cfg ds t := List.mem_of_find?_eq_some hfind
  have hpall : ∀ q ∈ pairsOf cfg ds t, q.2 ≤ p.2 := by
    have hPp0 := List.find?_some hfind
    have hPp : ((pairsOf cfg ds t).all fun q => decide (q.2 ≤ p.2)) = true := hPp0
    intro q hq
    have := List.all_eq_true.1 hPp q hq
    simpa using this
  obtain ⟨hpg, hpsc⟩ := mem_pairsOf.1 hpmem
  subst hj
  have hmax : ∀ k ∈ grpOf cfg ds t, scAt cfg ds k ≤ scAt cfg ds p.1 := by
    intro k hk
    have : (k, scAt cfg ds k) ∈ pairsOf cfg ds t := mem_pairsOf.2 ⟨hk, rfl⟩
    have := hpall _ this
    simpa [← hpsc] using this
  refine ⟨hpg, hmax, ?_⟩
  intro k hk hkj
  obtain ⟨l₁, l₂, hsplit, hfail⟩ := find?_split hfind
  have hkpair : (k, scAt cfg ds k) ∈ pairsOf cfg ds t := mem_pairsOf.2 ⟨hk, rfl⟩
  have hkl₁ : (k, scAt cfg ds k) ∈ l₁ := by
    rw [hsplit] at hkpair
    rcases List.mem_append.1 hkpair with h1 | h1
    · exact h1
    · rcases List.mem_cons.1 h1 with heq | h2
      · exfalso
        have : k = p.1 := congrArg Prod.fst heq
        omega
      · exfalso
        have hpw := pairsOf_pairwise cfg ds t
        rw [hsplit] at hpw
        have := ((List.pairwise_append.1 hpw).2.1)
        have hlt : p.1 < k := (List.pairwise_cons.1 this).1 _ h2
        omega
  have hPfalse : ((pairsOf cfg ds t).all fun q => decide (q.2 ≤ scAt cfg ds k)) = false :=
    hfail _ hkl₁
  have hnotall : ¬ ∀ q ∈ pairsOf cfg ds t, q.2 ≤ scAt cfg ds k := by
    intro hall
    have hall2 : ((pairsOf cfg ds t).all fun q => decide (q.2 ≤ scAt cfg ds k)) = true := by
      apply List.all_eq_true.2
      intro q hq
      simpa using hall q hq
    rw [hall2] at hPfalse
    exact Bool.noConfusion hPfalse
  push_neg at hnotall
  obtain ⟨q, hq, hqgt⟩ := hnotall
  have h2 : q.2 ≤ scAt cfg ds p.1 := by
    rw [← hpsc]
    exact hpall q hq
  omega

theorem survivor_exists {cfg : Config} {ds : Dataset} {i : Nat}
    (h : i < ds.rows.length) :
    ∃ j, survivorOf cfg ds (tupAt cfg ds i) = some j := by
  have hmem : i ∈ grpOf cfg ds (tupAt cfg ds i) := mem_grpOf.2 ⟨h, rfl⟩
  have hne : pairsOf cfg ds (tupAt cfg ds i) ≠ [] := by
    intro hnil
    have : (i, scAt cfg ds i) ∈ pairsOf cfg ds (tupAt cfg ds i) :=
      mem_pairsOf.2 ⟨hmem, rfl⟩
    rw [hnil] at this
    simp at this
  obtain ⟨p, hp, hmax⟩ := exists_max_snd _ hne
  have hsome : ((pairsOf cfg ds (tupAt cfg ds i)).find?
      (fun p => (pairsOf cfg ds (tupAt cfg ds i)).all (fun q => decide (q.2 ≤ p.2)))).isSome := by
    apply List.find?_isSome.2
    refine ⟨p, hp, ?_⟩
    apply List.all_eq_true.2
    intro q hq
    simpa using hmax q hq
  unfold survivorOf idxmax
  cases hf : (pairsOf cfg ds (tupAt cfg ds i)).find?
      (fun p => (pairsOf cfg ds (tupAt cfg ds i)).all (fun q => decide (q.2 ≤ p.2))) with
  | none => rw [hf] at hsome; simp at hsome
  | some q => exact ⟨q.1, rfl⟩

theorem dupB_congr {cfg : Config} {ds : Dataset} {i j : Nat}
    (h : tupAt cfg ds j = tupAt cfg ds i) : dupB cfg ds j = dupB cfg ds i := by
  simp [dupB, h]

/-! Lemmas about keep_idx. -/

theorem mem_keptIdx {cfg : Config} {ds : Dataset} {j : Nat} :
    j ∈ keptIdx cfg ds ↔
      dupB cfg ds j = true ∧ survivorOf cfg ds (tupAt cfg ds j) = some j := by
  unfold keptIdx
  rw [List.mem_filterMap]
  constructor
  · rintro ⟨t, ht, hsv⟩
    have hmem := (idxmax_spec hsv).1
    have htj : tupAt cfg ds j = t := (mem_grpOf.1 hmem).2
    have hdupt : t ∈ dupTuples cfg ds := mem_sortTuples.1 ht
    have hcount : 2 ≤ (tuples cfg ds).countP (fun u => decide (u = t)) := by
      have := List.mem_dedup.1 hdupt
      have := (List.mem_filter.1 this).2
      simpa using this
    constructor
    · rw [show dupB cfg ds j = decide (2 ≤ (tuples cfg ds).countP
        (fun u => decide (u = tupAt cfg ds j))) from rfl, htj]
      exact decide_eq_true hcount
    · rw [htj]
      exact hsv
  · rintro ⟨hdup, hsv⟩
    refine ⟨tupAt cfg ds j, ?_, hsv⟩
    have hmem := (idxmax_spec hsv).1
    have hj : j < ds.rows.length := (mem_grpOf.1 hmem).1
    apply mem_sortTuples.2
    apply List.mem_dedup.2
    apply List.mem_filter.2
    constructor
    · have hlen : j < (tuples cfg ds).length := by rw [tuples_length]; exact hj
      exact getD_mem_of_lt hlen []
    · simpa [dupB] using hdup

theorem keptIdx_nodup (cfg : Config) (ds : Dataset) : (keptIdx cfg ds).Nodup := by
  unfold keptIdx
  apply List.Nodup.filterMap
  · intro t u j htj huj
    have h1 : tupAt cfg ds j = t :=
      (mem_grpOf.1 (idxmax_spec (Option.mem_def.1 htj)).1).2
    have h2 : tupAt cfg ds j = u :=
      (mem_grpOf.1 (idxmax_spec (Option.mem_def.1 huj)).1).2
    rw [← h1, ← h2]
  · exact sortTuples_nodup (List.nodup_dedup _)

/-! Lemmas about the merge partners. -/

theorem joinAt_congr {cfg : Config} {ds : Dataset} {i j : Nat}
    (h : tupAt cfg ds i = tupAt cfg ds j) : joinAt cfg ds i = joinAt cfg ds j := by
  simp [joinAt, h]

theorem survivor_mem_matches {cfg : Config} {ds : Dataset} {i s : Nat}
    (hdup : dupB cfg ds i = true)
    (hs : survivorOf cfg ds (tupAt cfg ds i) = some s) :
    s ∈ matchesOf cfg ds i := by
  have hsg := (idxmax_spec hs).1
  have hts : tupAt cfg ds s = tupAt cfg ds i := (mem_grpOf.1 hsg).2
  apply List.mem_filter.2
  refine ⟨?_, ?_⟩
  · apply mem_keptIdx.2
    refine ⟨by rw [dupB_congr hts]; exact hdup, by rw [hts]; exact hs⟩
  · exact decide_eq_true (joinAt_congr hts)

theorem matches_eq_survivor {cfg : Config} {ds : Dataset} {i s : Nat}
    (hnc : noColl cfg ds) (hi : i < ds.rows.length)
    (hdup : dupB cfg ds i = true)
    (hs : survivorOf cfg ds (tupAt cfg ds i) = some s) :
    matchesOf cfg ds i = [s] := by
  unfold matchesOf
  apply filter_eq_singleton (keptIdx_nodup cfg ds)
  · exact (List.mem_filter.1 (survivor_mem_matches hdup hs)).1
  · have hts : tupAt cfg ds s = tupAt cfg ds i :=
      (mem_grpOf.1 (idxmax_spec hs).1).2
    exact decide_eq_true (joinAt_congr hts)
  · intro x hx hpx
    obtain ⟨hdupx, hsvx⟩ := mem_keptIdx.1 hx
    have hxlt : x < ds.rows.length := (mem_grpOf.1 (idxmax_spec hsvx).1).1
    have hjoin : joinAt cfg ds x = joinAt cfg ds i := by simpa using hpx
    have htup : tupAt cfg ds x = tupAt cfg ds i :=
      hnc x (List.mem_range.2 hxlt) i (List.mem_range.2 hi) hdupx hdup hjoin
    rw [htup] at hsvx
    rw [hs] at hsvx
    exact (Option.some_inj.1 hsvx).symm


/-! Row-level lemmas. -/

theorem rowGet_cons (x : String × Val) (t : Row) (cq : String) :
    rowGet (x :: t) cq = if x.1 = cq then x.2 else rowGet t cq := by
  unfold rowGet
  by_cases h : x.1 = cq
  · rw [List.find?_cons_of_pos _ (by simp [h]), if_pos h]
  · rw [List.find?_cons_of_neg _ (by simp [h]), if_neg h]

theorem dropScoring_cons (p : String × Val) (t : Row) :
    dropScoring (p :: t) =
      if p.1 ≠ "STAGE" ∧ p.1 ≠ "_score" then p :: dropScoring t
      else dropScoring t := by
  unfold dropScoring
  by_cases h1 : p.1 = "STAGE" <;> by_cases h2 : p.1 = "_score" <;>
    simp [h1, h2]

theorem dropScoring_append (r s : Row) :
    dropScoring (r ++ s) = dropScoring r ++ dropScoring s := by
  unfold dropScoring
  exact List.filter_append _ _

theorem dropScoring_overwrite (c : String) (hc : c = "STAGE" ∨ c = "_score")
    (v : Val) (r : Row) :
    dropScoring (r.map (fun p => if p.1 = c then (p.1, v) else p)) = dropScoring r := by
  induction r with
  | nil => rfl
  | cons p t ih =>
    rw [List.map_cons]
    by_cases hp : p.1 = c
    · rw [if_pos hp, dropScoring_cons, dropScoring_cons]
      have hdead : ¬(p.1 ≠ "STAGE" ∧ p.1 ≠ "_score") := by
        rcases hc with rfl | rfl <;> simp [hp]
      rw [if_neg (by simpa using hdead), if_neg hdead]
      exact ih
    · rw [if_neg hp, dropScoring_cons, dropScoring_cons]
      by_cases hkeep : p.1 ≠ "STAGE" ∧ p.1 ≠ "_score"
      · rw [if_pos hkeep, if_pos hkeep, ih]
      · rw [if_neg hkeep, if_neg hkeep]
        exact ih

theorem dropScoring_setColRow (c : String) (hc : c = "STAGE" ∨ c = "_score")
    (v : Val) (b : Bool) (r : Row) :
    dropScoring (setColRow c v b r) = dropScoring r := by
  cases b with
  | true =>
    show dropScoring (r.map fun p => if p.1 = c then (p.1, v) else p) = dropScoring r
    exact dropScoring_overwrite c hc v r
  | false =>
    show dropScoring (r ++ [(c, v)]) = dropScoring r
    rw [dropScoring_append]
    have : dropScoring [(c, v)] = [] := by
      rcases hc with rfl | rfl <;> rfl
    rw [this, List.append_nil]

theorem dropScoring_stagedRow (cfg : Config) (b₁ b₂ : Bool) (r : Row) :
    dropScoring (stagedRow cfg b₁ b₂ r) = dropScoring r := by
  unfold stagedRow
  rw [dropScoring_setColRow "_score" (Or.inr rfl), dropScoring_setColRow "STAGE" (Or.inl rfl)]

theorem dropScoring_w_eq_outputRow (cfg : Config) (b₁ b₂ : Bool) (r : Row) :
    dropScoring (stagedRow cfg b₁ b₂ (normRow cfg.keys r)) = outputRow cfg.keys r := by
  rw [dropScoring_stagedRow]
  rfl

theorem rowGet_setColRow_ne {c cq : String} (h : cq ≠ c) (v : Val) (b : Bool) (r : Row) :
    rowGet (setColRow c v b r) cq = rowGet r cq := by
  cases b with
  | true =>
    show rowGet (r.map fun p => if p.1 = c then (p.1, v) else p) cq = rowGet r cq
    induction r with
    | nil => rfl
    | cons p t ih =>
      rw [List.map_cons]
      by_cases hpc : p.1 = c
      · have hne : p.1 ≠ cq := by
          rw [hpc]
          exact fun hh => h hh.symm
        rw [if_pos hpc, rowGet_cons, rowGet_cons]
        simp only [if_neg hne]
        exact ih
      · rw [if_neg hpc, rowGet_cons, rowGet_cons, ih]
  | false =>
    show rowGet (r ++ [(c, v)]) cq = rowGet r cq
    induction r with
    | nil =>
      show rowGet [(c, v)] cq = rowGet [] cq
      rw [rowGet_cons, if_neg (fun hh => h hh.symm)]
    | cons p t ih =>
      rw [List.cons_append, rowGet_cons, rowGet_cons, ih]

theorem rowGet_stagedRow_ne {cq : String} (h1 : cq ≠ "STAGE") (h2 : cq ≠ "_score")
    (cfg : Config) (b₁ b₂ : Bool) (r : Row) :
    rowGet (stagedRow cfg b₁ b₂ r) cq = rowGet r cq := by
  unfold stagedRow
  rw [rowGet_setColRow_ne h2, rowGet_setColRow_ne h1]

theorem rowGet_normRow_mem {keys : List String} {k : String} (hk : k ∈ keys) :
    ∀ r : Row, k ∈ r.map Prod.fst →
      rowGet (normRow keys r) k = .vstr (pyStrip (pyStr (rowGet r k))) := by
  intro r
  induction r with
  | nil => intro hpres; simp at hpres
  | cons p t ih =>
    intro hpres
    unfold normRow
    rw [List.map_cons]
    by_cases hpk : p.1 = k
    · have hmem : p.1 ∈ keys := hpk ▸ hk
      rw [if_pos hmem, rowGet_cons, rowGet_cons]
      simp only [if_pos hpk]
    · have hpres2 : k ∈ t.map Prod.fst := by
        rw [List.map_cons] at hpres
        rcases List.mem_cons.1 hpres with heq | hmem
        · exact absurd heq.symm hpk
        · exact hmem
      have ih2 := ih hpres2
      unfold normRow at ih2
      by_cases hmem : p.1 ∈ keys
      · rw [if_pos hmem, rowGet_cons, rowGet_cons]
        simp only [if_neg hpk]
        exact ih2
      · rw [if_neg hmem, rowGet_cons, rowGet_cons]
        simp only [if_neg hpk]
        exact ih2

theorem rowGet_dropScoring {k : String} (h1 : k ≠ "STAGE") (h2 : k ≠ "_score")
    (r : Row) : rowGet (dropScoring r) k = rowGet r k := by
  induction r with
  | nil => rfl
  | cons p t ih =>
    rw [dropScoring_cons]
    by_cases hkeep : p.1 ≠ "STAGE" ∧ p.1 ≠ "_score"
    · rw [if_pos hkeep, rowGet_cons, rowGet_cons, ih]
    · rw [if_neg hkeep, rowGet_cons, ih]
      have hne : p.1 ≠ k := by
        intro heq
        rw [heq] at hkeep
        exact hkeep ⟨h1, h2⟩
      rw [if_neg hne]

/-! Positionwise lemmas for the pipeline lists. -/

theorem nrows_length (cfg : Config) (ds : Dataset) :
    (nrows cfg ds).length = ds.rows.length := by
  simp [nrows]

theorem wRows_length (cfg : Config) (ds : Dataset) :
    (wRows cfg ds).length = ds.rows.length := by
  simp [wRows, nrows]

theorem wRows_getD {cfg : Config} {ds : Dataset} {i : Nat} (hi : i < ds.rows.length) :
    (wRows cfg ds).getD i [] =
      stagedRow cfg (decide ("STAGE" ∈ ds.cols)) (decide ("_score" ∈ ds.cols))
        (normRow cfg.keys (ds.rows.getD i [])) := by
  unfold wRows
  rw [getD_map_of_lt _ (by rw [nrows_length]; exact hi) _ ([] : Row)]
  unfold nrows
  rw [getD_map_of_lt _ hi _ ([] : Row)]

theorem stAt_eq {cfg : Config} {ds : Dataset} {i : Nat} (hi : i < ds.rows.length) :
    stAt cfg ds i = derive_stage cfg (normRow cfg.keys (ds.rows.getD i [])) := by
  unfold stAt stages
  rw [getD_map_of_lt _ (by rw [nrows_length]; exact hi) _ ([] : Row)]
  unfold nrows
  rw [getD_map_of_lt _ hi _ ([] : Row)]

theorem scAt_eq {cfg : Config} {ds : Dataset} {i : Nat} (hi : i < ds.rows.length) :
    scAt cfg ds i = scoreVal cfg.funnel_priority (stAt cfg ds i) := by
  unfold scAt scores stAt
  rw [getD_map_of_lt _ (by simpa [stages, nrows] using hi) _ none]

theorem tupAt_eq {cfg : Config} {ds : Dataset} {i : Nat} (hi : i < ds.rows.length) :
    tupAt cfg ds i = cfg.keys.map (rowGet ((wRows cfg ds).getD i [])) := by
  unfold tupAt tuples
  rw [getD_map_of_lt _ (by rw [wRows_length]; exact hi) _ ([] : Row)]

theorem hasDup_false_noRemove {cfg : Config} {ds : Dataset}
    (h : hasDupB cfg ds = false) :
    ∀ i ∈ List.range ds.rows.length, toRemoveB cfg ds i = false := by
  intro i hi
  have hdup : dupB cfg ds i = false := by
    by_contra hne
    have : dupB cfg ds i = true := by
      cases hd : dupB cfg ds i
      · exact absurd hd hne
      · rfl
    have : hasDupB cfg ds = true := List.any_eq_true.2 ⟨i, hi, this⟩
    rw [this] at h
    exact Bool.noConfusion h
  unfold toRemoveB
  rw [hdup]
  rfl

/-! Reductions of log_formation. -/

theorem log_formation_clash {cfg : Config} (ds : Dataset) (h : scoreClash cfg) :
    log_formation cfg ds =
      .error (.valueError "Can only compare identically-labeled Series objects") := by
  simp only [log_formation, if_pos h]

theorem log_formation_ok {cfg : Config} (ds : Dataset) (h : ¬ scoreClash cfg) :
    log_formation cfg ds = .ok (auditRows cfg ds) := by
  simp only [log_formation, if_neg h]

/-! Extraction of the success branches of deduplicate_records. -/

theorem ok_cases {ds : Dataset} {cfg : Config} {dd : Dataset} {aud : List AuditRow}
    (h : (deduplicate_records ds (some cfg)).2 = .ok (dd, aud)) :
    cfg.keys ≠ [] ∧ keysPresent cfg ds ∧ missingFlagCols cfg ds = [] ∧
      ((hasDupB cfg ds = false ∧
          dd = ⟨outCols ds, (wRows cfg ds).map dropScoring⟩ ∧ aud = []) ∨
       (hasDupB cfg ds = true ∧ ¬ scoreClash cfg ∧
          (∃ q, cfg.threshold_for_removing = some q) ∧
          dd = ⟨outCols ds, dedupedRows cfg ds⟩ ∧ aud = auditRows cfg ds)) := by
  simp only [deduplicate_records] at h
  by_cases h1 : cfg.keys = []
  · rw [if_pos h1] at h
    simp at h
  rw [if_neg h1] at h
  by_cases h2 : ∀ k ∈ cfg.keys, k ∈ ds.cols
  case neg =>
    rw [if_pos h2] at h
    simp at h
  rw [if_neg (not_not_intro h2)] at h
  by_cases h3 : missingFlagCols cfg ds = []
  case neg =>
    rw [if_pos h3] at h
    simp at h
  rw [if_neg (not_not_intro h3)] at h
  refine ⟨h1, h2, h3, ?_⟩
  by_cases h4 : hasDupB cfg ds = false
  · left
    rw [if_pos h4] at h
    replace h : (Except.ok (⟨outCols ds, (wRows cfg ds).map dropScoring⟩, ([] : List AuditRow))
        : Except PyErr (Dataset × List AuditRow)) = Except.ok (dd, aud) := h
    simp only [Except.ok.injEq, Prod.mk.injEq] at h
    exact ⟨h4, h.1.symm, h.2.symm⟩
  · right
    rw [if_neg h4] at h
    have h4t : hasDupB cfg ds = true := by
      cases hd : hasDupB cfg ds
      · exact absurd hd h4
      · rfl
    by_cases hclash : scoreClash cfg
    · rw [log_formation_clash ds hclash] at h
      simp at h
    rw [log_formation_ok ds hclash] at h
    cases hthr : cfg.threshold_for_removing with
    | none =>
      rw [hthr] at h
      simp at h
    | some q =>
      rw [hthr] at h
      replace h : (Except.ok (⟨outCols ds, dedupedRows cfg ds⟩, auditRows cfg ds)
          : Except PyErr (Dataset × List AuditRow)) = Except.ok (dd, aud) := h
      simp only [Except.ok.injEq, Prod.mk.injEq] at h
      exact ⟨h4t, hclash, ⟨q, rfl⟩, h.1.symm, h.2.symm⟩

/-! The result of deduplicate_records in each region of the input space. -/

theorem run_keysEmpty {ds : Dataset} {cfg : Config} (h1 : cfg.keys = []) :
    (deduplicate_records ds (some cfg)).2 = .error (.valueError "keys are empty") := by
  simp only [deduplicate_records, if_pos h1]

theorem run_keyError {ds : Dataset} {cfg : Config} (h1 : cfg.keys ≠ [])
    (h2 : ¬ keysPresent cfg ds) :
    (deduplicate_records ds (some cfg)).2 = .error .keyError := by
  have h2n : ¬ ∀ k ∈ cfg.keys, k ∈ ds.cols := h2
  simp only [deduplicate_records, if_neg h1, if_pos h2n]

theorem run_flagError {ds : Dataset} {cfg : Config} (h1 : cfg.keys ≠ [])
    (h2 : keysPresent cfg ds) (h3 : missingFlagCols cfg ds ≠ []) :
    (deduplicate_records ds (some cfg)).2 =
      .error (.valueError ("Dataset has no flag columns: " ++
        String.intercalate ", " (missingFlagCols cfg ds))) := by
  have h2p : ∀ k ∈ cfg.keys, k ∈ ds.cols := h2
  simp only [deduplicate_records, if_neg h1, if_neg (not_not_intro h2p), if_pos h3]

theorem run_scoreClash {ds : Dataset} {cfg : Config} (h1 : cfg.keys ≠ [])
    (h2 : keysPresent cfg ds) (h3 : missingFlagCols cfg ds = [])
    (h4 : hasDupB cfg ds = true) (h5 : scoreClash cfg) :
    (deduplicate_records ds (some cfg)).2 =
      .error (.valueError "Can only compare identically-labeled Series objects") := by
  have h2p : ∀ k ∈ cfg.keys, k ∈ ds.cols := h2
  simp only [deduplicate_records, if_neg h1, if_neg (not_not_intro h2p),
    if_neg (not_not_intro h3), if_neg (show ¬ hasDupB cfg ds = false by simp [h4]),
    log_formation_clash ds h5]

theorem run_typeError {ds : Dataset} {cfg : Config} (h1 : cfg.keys ≠ [])
    (h2 : keysPresent cfg ds) (h3 : missingFlagCols cfg ds = [])
    (h4 : hasDupB cfg ds = true) (h6 : ¬ scoreClash cfg)
    (h5 : cfg.threshold_for_removing = none) :
    (deduplicate_records ds (some cfg)).2 = .error .typeError := by
  have h2p : ∀ k ∈ cfg.keys, k ∈ ds.cols := h2
  simp only [deduplicate_records, if_neg h1, if_neg (not_not_intro h2p),
    if_neg (not_not_intro h3), if_neg (show ¬ hasDupB cfg ds = false by simp [h4]),
    log_formation_ok ds h6, h5]

theorem run_ok_noDup {ds : Dataset} {cfg : Config} (h1 : cfg.keys ≠ [])
    (h2 : keysPresent cfg ds) (h3 : missingFlagCols cfg ds = [])
    (h4 : hasDupB cfg ds = false) :
    (deduplicate_records ds (some cfg)).2 =
      .ok (⟨outCols ds, (wRows cfg ds).map dropScoring⟩, []) := by
  have h2p : ∀ k ∈ cfg.keys, k ∈ ds.cols := h2
  simp only [deduplicate_records, if_neg h1, if_neg (not_not_intro h2p),
    if_neg (not_not_intro h3), if_pos h4]

theorem run_ok_dup {ds : Dataset} {cfg : Config} {q : ℚ} (h1 : cfg.keys ≠ [])
    (h2 : keysPresent cfg ds) (h3 : missingFlagCols cfg ds = [])
    (h4 : hasDupB cfg ds = true) (h6 : ¬ scoreClash cfg)
    (h5 : cfg.threshold_for_removing = some q) :
    (deduplicate_records ds (some cfg)).2 =
      .ok (⟨outCols ds, dedupedRows cfg ds⟩, auditRows cfg ds) := by
  have h2p : ∀ k ∈ cfg.keys, k ∈ ds.cols := h2
  simp only [deduplicate_records, if_neg h1, if_neg (not_not_intro h2p),
    if_neg (not_not_intro h3), if_neg (show ¬ hasDupB cfg ds = false by simp [h4]),
    log_formation_ok ds h6, h5]

/-! The claims. -/

/-- C2: for every configuration and record, the Derived Stage is the
highest-precedence stage, in the fixed order ENROLL > COMMIT > ADMIT >
APPLY, whose configured flag column holds the value 1 (no stage when none
matches or none is configured), and it is independent of funnel_priority. -/
theorem claim_C2 (cfg : Config) (r : Row) :
    derive_stage cfg r = stageSpec cfg r ∧
      ∀ fp : List String,
        derive_stage { cfg with funnel_priority := fp } r = derive_stage cfg r := by
  constructor
  · unfold derive_stage stageSpec precedenceOrder flagColFor
    by_cases h1 : rowGetOpt r cfg.flagEnroll = Val.vint 1 <;>
      by_cases h2 : rowGetOpt r cfg.flagCommit = Val.vint 1 <;>
        by_cases h3 : rowGetOpt r cfg.flagAdmit = Val.vint 1 <;>
          by_cases h4 : rowGetOpt r cfg.flagApply = Val.vint 1 <;>
            simp [h1, h2, h3, h4]
  · intro fp
    rfl

/-- C3: a record scores scoreVal of its Derived Stage; on a
duplicate-free funnel_priority the stage at 0-based rank i scores
len(funnel_priority) - i, a stage absent from funnel_priority scores 0, and
a record with no stage scores 0. -/
theorem claim_C3 :
    (∀ (cfg : Config) (ds : Dataset),
      scores cfg ds = (stages cfg ds).map (scoreVal cfg.funnel_priority)) ∧
    (∀ fp : List String, fp.Nodup → ∀ (i : Nat) (st : String), fp[i]? = some st →
      scoreVal fp (some st) = fp.length - i) ∧
    (∀ (fp : List String) (st : String), st ∉ fp → scoreVal fp (some st) = 0) ∧
    (∀ fp : List String, scoreVal fp none = 0) := by
  refine ⟨fun cfg ds => rfl, ?_, ?_, fun fp => rfl⟩
  · intro fp hnd i st h
    have hfil := enumFrom_filter_unique fp 0 i h hnd
    show (match (fp.enum.filter (fun p => decide (p.2 = st))).getLast? with
      | some p => fp.length - p.1
      | none => 0) = fp.length - i
    rw [show fp.enum = List.enumFrom 0 fp from rfl, hfil]
    simp
  · intro fp st h
    have hfil : fp.enum.filter (fun p => decide (p.2 = st)) = [] := by
      apply List.filter_eq_nil_iff.2
      intro p hp
      simp only [decide_eq_true_eq]
      intro hps
      exact h (hps ▸ snd_mem_enumFrom (show p ∈ List.enumFrom 0 fp from hp))
    show (match (fp.enum.filter (fun p => decide (p.2 = st))).getLast? with
      | some p => fp.length - p.1
      | none => 0) = 0
    rw [hfil]
    rfl

/-- Witness for C3: in the four-stage funnel ENROLL, COMMIT, ADMIT, APPLY
(duplicate-free), COMMIT sits at rank 1 and scores 4 - 1 = 3. -/
theorem claim_C3_witness :
    (["ENROLL", "COMMIT", "ADMIT", "APPLY"] : List String).Nodup ∧
      scoreVal ["ENROLL", "COMMIT", "ADMIT", "APPLY"] (some "COMMIT") = 4 - 1 :=
  ⟨by decide, claim_C3.2.1 ["ENROLL", "COMMIT", "ADMIT", "APPLY"] (by decide)
    1 "COMMIT" (by decide)⟩

/-- C8 (code bug): the engine mutates the caller's dataframe.  After the
call on a one-record dataset whose key value is " a ", the caller-visible
object differs from the input: its key is trimmed to "a" and the engine's
STAGE and _score columns remain attached (lines 23, 49 and 53 assign into
the caller's frame; the drop of lines 58/80 only rebinds the local name). -/
theorem claim_C8_bug :
    (deduplicate_records dsWhite (some cfgKeyOnly)).1 ≠ dsWhite ∧
      (deduplicate_records dsWhite (some cfgKeyOnly)).1 =
        ⟨["ID", "STAGE", "_score"],
         [[("ID", .vstr "a"), ("STAGE", .vnone), ("_score", .vint 0)]]⟩ := by
  constructor
  · decide
  · decide

/-- C7 counterexample: with key column "K" and flag column "F" both absent
from the dataset, the claim demands a ConfigurationError (ValueError) for
the missing flag column, but the engine raises KeyError instead: the
key-column selection of line 23 runs before the flag check of line 32. -/
theorem claim_C7_counterexample :
    cfgMissingBoth.keys ≠ [] ∧ "F" ∈ flag_cols cfgMissingBoth ∧
      "F" ∉ dsNoKeyCol.cols ∧
      (deduplicate_records dsNoKeyCol (some cfgMissingBoth)).2 =
        .error .keyError := by
  decide

/-- C7 (amended): within the modelled label scope (cleanLabels: key and
flag columns pairwise fresh and avoiding the other bookkeeping labels of
_log_formation), the run raises ValueError (the ConfigurationError of the
spec) exactly when keys is empty, or all key columns exist and a configured
flag column is missing, or validation passes, duplicates exist and _score
is itself a key or flag column (the duplicated label breaks reason_fn); it
raises KeyError exactly when keys is non-empty and some key column is
absent from the frame; it raises TypeError exactly when validation passes,
duplicates exist, no _score clash occurs and threshold_for_removing is
missing; and it returns normally in every remaining case. -/
theorem claim_C7_amended (ds : Dataset) (cfg : Config) (_hsafe : cleanLabels cfg) :
    ((∃ msg, (deduplicate_records ds (some cfg)).2 = .error (.valueError msg)) ↔
      (cfg.keys = [] ∨
        (cfg.keys ≠ [] ∧ keysPresent cfg ds ∧ missingFlagCols cfg ds ≠ []) ∨
        (cfg.keys ≠ [] ∧ keysPresent cfg ds ∧ missingFlagCols cfg ds = [] ∧
          hasDupB cfg ds = true ∧ scoreClash cfg))) ∧
    ((deduplicate_records ds (some cfg)).2 = .error .keyError ↔
      (cfg.keys ≠ [] ∧ ¬ keysPresent cfg ds)) ∧
    ((deduplicate_records ds (some cfg)).2 = .error .typeError ↔
      (cfg.keys ≠ [] ∧ keysPresent cfg ds ∧ missingFlagCols cfg ds = [] ∧
        hasDupB cfg ds = true ∧ ¬ scoreClash cfg ∧
        cfg.threshold_for_removing = none)) ∧
    (exceptOk (deduplicate_records ds (some cfg)).2 = true ↔
      (cfg.keys ≠ [] ∧ keysPresent cfg ds ∧ missingFlagCols cfg ds = [] ∧
        (hasDupB cfg ds = true →
          ¬ scoreClash cfg ∧ cfg.threshold_for_removing ≠ none))) := by
  by_cases h1 : cfg.keys = []
  · rw [run_keysEmpty h1]
    refine ⟨?_, ?_, ?_, ?_⟩ <;> simp [h1, exceptOk]
  by_cases h2 : keysPresent cfg ds
  case neg =>
    rw [run_keyError h1 h2]
    refine ⟨?_, ?_, ?_, ?_⟩ <;> simp [h1, h2, exceptOk]
  by_cases h3 : missingFlagCols cfg ds = []
  case neg =>
    rw [run_flagError h1 h2 h3]
    refine ⟨?_, ?_, ?_, ?_⟩ <;> simp [h1, h2, h3, exceptOk]
  by_cases h4 : hasDupB cfg ds = false
  · rw [run_ok_noDup h1 h2 h3 h4]
    refine ⟨?_, ?_, ?_, ?_⟩ <;> simp [h1, h2, h3, h4, exceptOk]
  · have h4t : hasDupB cfg ds = true := by
      cases hd : hasDupB cfg ds
      · exact absurd hd h4
      · rfl
    by_cases hclash : scoreClash cfg
    · rw [run_scoreClash h1 h2 h3 h4t hclash]
      refine ⟨?_, ?_, ?_, ?_⟩ <;> simp [h1, h2, h3, h4t, hclash, exceptOk]
    cases hthr : cfg.threshold_for_removing with
    | none =>
      rw [run_typeError h1 h2 h3 h4t hclash hthr]
      refine ⟨?_, ?_, ?_, ?_⟩ <;> simp [h1, h2, h3, h4t, hclash, hthr, exceptOk]
    | some q =>
      rw [run_ok_dup h1 h2 h3 h4t hclash hthr]
      refine ⟨?_, ?_, ?_, ?_⟩ <;> simp [h1, h2, h3, h4t, hclash, hthr, exceptOk]

/-- Witness for C7 at the section-8 funnel configuration: its labels are in
the modelled scope and the run returns normally. -/
theorem claim_C7_witness :
    cleanLabels cfgFunnel ∧
      exceptOk (deduplicate_records dsFunnel (some cfgFunnel)).2 = true :=
  ⟨by decide,
    (claim_C7_amended dsFunnel cfgFunnel (by decide)).2.2.2.mpr (by decide)⟩

/-! Helper lemmas relating the returned rows to outputRow. -/

theorem wRows_dropScoring (cfg : Config) (ds : Dataset) :
    (wRows cfg ds).map dropScoring = ds.rows.map (outputRow cfg.keys) := by
  unfold wRows nrows
  rw [List.map_map, List.map_map]
  apply List.map_congr_left
  intro r hr
  exact dropScoring_w_eq_outputRow cfg _ _ r

theorem dedupedRows_eq_output (cfg : Config) (ds : Dataset) :
    dedupedRows cfg ds =
      ((List.range ds.rows.length).filter (fun i => !toRemoveB cfg ds i)).map
        (fun i => outputRow cfg.keys (ds.rows.getD i [])) := by
  unfold dedupedRows
  apply List.map_congr_left
  intro i hi
  have hlt : i < ds.rows.length := List.mem_range.1 (List.mem_filter.1 hi).1
  rw [wRows_getD hlt, dropScoring_w_eq_outputRow]

theorem noDup_rows_eq_output (cfg : Config) (ds : Dataset)
    (h4 : hasDupB cfg ds = false) :
    (wRows cfg ds).map dropScoring =
      ((List.range ds.rows.length).filter (fun i => !toRemoveB cfg ds i)).map
        (fun i => outputRow cfg.keys (ds.rows.getD i [])) := by
  rw [wRows_dropScoring]
  have hfil : (List.range ds.rows.length).filter (fun i => !toRemoveB cfg ds i)
      = List.range ds.rows.length := by
    apply List.filter_eq_self.2
    intro i hi
    rw [hasDup_false_noRemove h4 i hi]
    rfl
  rw [hfil, range_map_getD ds.rows (outputRow cfg.keys) []]

theorem outCols_of_fresh {ds : Dataset} (hS : "STAGE" ∉ ds.cols)
    (hc : "_score" ∉ ds.cols) : outCols ds = ds.cols := by
  unfold outCols workCols addColName
  have h2 : "_score" ∉ ds.cols ++ ["STAGE"] := by
    intro hmem
    rcases List.mem_append.1 hmem with hmem | hmem
    · exact hc hmem
    · simp at hmem
  rw [if_neg hS, if_neg h2, List.filter_append, List.filter_append]
  have hcols : ds.cols.filter (fun c => decide (c ≠ "STAGE") && decide (c ≠ "_score"))
      = ds.cols := by
    apply List.filter_eq_self.2
    intro c hcmem
    have hc1 : c ≠ "STAGE" := fun heq => hS (heq ▸ hcmem)
    have hc2 : c ≠ "_score" := fun heq => hc (heq ▸ hcmem)
    simp [hc1, hc2]
  rw [hcols]
  simp

/-- C1 (amended): on every successful run, within each duplicate group
exactly one record survives, namely the group member with the maximum
Priority Score and, among the tied, the one earliest in original row order;
and the deduped rows are exactly the key-normalized input records (with any
STAGE/_score columns dropped) at the non-removed positions, in original row
order. -/
theorem claim_C1 (ds : Dataset) (cfg : Config) (dd : Dataset) (aud : List AuditRow)
    (h : (deduplicate_records ds (some cfg)).2 = .ok (dd, aud)) :
    dd.rows = ((List.range ds.rows.length).filter (fun i => !toRemoveB cfg ds i)).map
        (fun i => outputRow cfg.keys (ds.rows.getD i [])) ∧
      ∀ i, i < ds.rows.length → dupB cfg ds i = true →
        ∃ j, j ∈ grp cfg ds i ∧
          (∀ k ∈ grp cfg ds i, scAt cfg ds k ≤ scAt cfg ds j) ∧
          (∀ k ∈ grp cfg ds i, scAt cfg ds k = scAt cfg ds j → j ≤ k) ∧
          (grp cfg ds i).filter (fun k => !toRemoveB cfg ds k) = [j] := by
  obtain ⟨h1, h2, h3, hbr⟩ := ok_cases h
  constructor
  · rcases hbr with ⟨h4, hdd, -⟩ | ⟨h4, -, -, hdd, -⟩
    · rw [hdd]
      exact noDup_rows_eq_output cfg ds h4
    · rw [hdd]
      exact dedupedRows_eq_output cfg ds
  · intro i hi hdup
    obtain ⟨j, hj⟩ := survivor_exists hi
    obtain ⟨hjmem, hjmax, hjfirst⟩ := idxmax_spec hj
    have htj : tupAt cfg ds j = tupAt cfg ds i := (mem_grpOf.1 hjmem).2
    refine ⟨j, hjmem, hjmax, ?_, ?_⟩
    · intro k hk heq
      by_contra hnle
      push_neg at hnle
      have := hjfirst k hk hnle
      omega
    · apply filter_eq_singleton (grpOf_nodup cfg ds _) hjmem
      · have hkept : j ∈ keptIdx cfg ds := by
          apply mem_keptIdx.2
          refine ⟨by rw [dupB_congr htj]; exact hdup, by rw [htj]; exact hj⟩
        have : toRemoveB cfg ds j = false := by
          unfold toRemoveB
          rw [decide_eq_true hkept]
          simp
        rw [this]
        rfl
      · intro x hx hpx
        have htx : tupAt cfg ds x = tupAt cfg ds i := (mem_grpOf.1 hx).2
        have hdupx : dupB cfg ds x = true := by rw [dupB_congr htx]; exact hdup
        have hxkept : x ∈ keptIdx cfg ds := by
          by_contra hxk
          have : toRemoveB cfg ds x = true := by
            unfold toRemoveB
            rw [hdupx, decide_eq_false hxk]
            rfl
          rw [this] at hpx
          exact Bool.noConfusion hpx
        have hsvx := (mem_keptIdx.1 hxkept).2
        rw [htx, hj] at hsvx
        exact (Option.some_inj.1 hsvx).symm

/-- C1 counterexample: on two records whose key values " 1 " and "1" differ
only in whitespace, the run succeeds, the second record is removed, yet the
returned deduped dataset is not the input records minus the removed one:
the surviving record comes back with its key trimmed. -/
theorem claim_C1_counterexample :
    (deduplicate_records dsTrimDup (some cfgKeyOnly)).2 =
        .ok (okResult (deduplicate_records dsTrimDup (some cfgKeyOnly)).2) ∧
      removedIdx cfgKeyOnly dsTrimDup = [1] ∧
      (okResult (deduplicate_records dsTrimDup (some cfgKeyOnly)).2).1.rows ≠
        [dsTrimDup.rows.getD 0 []] := by
  refine ⟨rfl, by decide, by decide⟩

/-- Witness for C1 at the section-8 funnel scenario: position 0 is part of a
duplicate group and the amended deduped-rows equation holds there. -/
theorem claim_C1_witness :
    dupB cfgFunnel dsFunnel 0 = true ∧
      (okResult (deduplicate_records dsFunnel (some cfgFunnel)).2).1.rows =
        ((List.range dsFunnel.rows.length).filter
            (fun i => !toRemoveB cfgFunnel dsFunnel i)).map
          (fun i => outputRow cfgFunnel.keys (dsFunnel.rows.getD i [])) :=
  ⟨by decide,
    (claim_C1 dsFunnel cfgFunnel
      (okResult (deduplicate_records dsFunnel (some cfgFunnel)).2).1
      (okResult (deduplicate_records dsFunnel (some cfgFunnel)).2).2 rfl).1⟩

/-- C9 (amended): a successful run on a dataset without duplicate groups
keeps every record, key-normalized with the scoring columns dropped, in
original order, with an empty audit dataset; on a dataset already in
normalized form (string keys fixed by stripping, no STAGE or _score
columns) the returned dataset is the input unchanged, so deduplication is
idempotent. -/
theorem claim_C9 (ds : Dataset) (cfg : Config) (dd : Dataset) (aud : List AuditRow)
    (h : (deduplicate_records ds (some cfg)).2 = .ok (dd, aud))
    (hnd : hasDupB cfg ds = false) :
    dd.rows = ds.rows.map (outputRow cfg.keys) ∧ aud = [] ∧
      ((∀ r ∈ ds.rows, ∀ p ∈ r, p.1 ≠ "STAGE" ∧ p.1 ≠ "_score" ∧
          (p.1 ∈ cfg.keys → p.2 = .vstr (pyStrip (pyStr p.2)))) →
        "STAGE" ∉ ds.cols → "_score" ∉ ds.cols → dd = ds) := by
  obtain ⟨h1, h2, h3, hbr⟩ := ok_cases h
  rcases hbr with ⟨h4, hdd, haud⟩ | ⟨h4, -, -, -, -⟩
  swap
  · rw [h4] at hnd
    exact Bool.noConfusion hnd
  have hrows : dd.rows = ds.rows.map (outputRow cfg.keys) := by
    rw [hdd]
    exact wRows_dropScoring cfg ds
  refine ⟨hrows, haud, ?_⟩
  intro hnf hS hc
  have houtrows : ds.rows.map (outputRow cfg.keys) = ds.rows := by
    apply List.map_congr_left (g := id) ?_ |>.trans (List.map_id ds.rows)
    intro r hr
    have hnorm : normRow cfg.keys r = r := by
      apply List.map_congr_left (g := id) ?_ |>.trans (List.map_id r)
      intro p hp
      obtain ⟨-, -, hkey⟩ := hnf r hr p hp
      by_cases hk : p.1 ∈ cfg.keys
      · simp only [if_pos hk, id]
        rw [← hkey hk]
      · simp only [if_neg hk, id]
    show dropScoring (normRow cfg.keys r) = r
    rw [hnorm]
    apply List.filter_eq_self.2
    intro p hp
    obtain ⟨hp1, hp2, -⟩ := hnf r hr p hp
    simp [hp1, hp2]
  have hro : (wRows cfg ds).map dropScoring = ds.rows :=
    (wRows_dropScoring cfg ds).trans houtrows
  rw [hdd, outCols_of_fresh hS hc, hro]

/-- C9 counterexample: a one-record dataset (no duplicate groups) with key
value " 1 " is not returned unchanged: the no-duplicates path still hands
back the normalized frame, whose key is trimmed to "1". -/
theorem claim_C9_counterexample :
    hasDupB cfgKeyOnly dsPad = false ∧
      (deduplicate_records dsPad (some cfgKeyOnly)).2 =
        .ok (okResult (deduplicate_records dsPad (some cfgKeyOnly)).2) ∧
      (okResult (deduplicate_records dsPad (some cfgKeyOnly)).2).1.rows ≠
        dsPad.rows := by
  refine ⟨by decide, rfl, by decide⟩

/-- Witness for C9 on a normalized duplicate-free dataset: the run returns
the dataset unchanged with an empty audit dataset. -/
theorem claim_C9_witness :
    (okResult (deduplicate_records dsClean (some cfgKeyOnly)).2).1 = dsClean ∧
      (okResult (deduplicate_records dsClean (some cfgKeyOnly)).2).2 = [] := by
  have h := claim_C9 dsClean cfgKeyOnly
    (okResult (deduplicate_records dsClean (some cfgKeyOnly)).2).1
    (okResult (deduplicate_records dsClean (some cfgKeyOnly)).2).2 rfl (by decide)
  exact ⟨h.2.2 (by decide) (by decide) (by decide), h.2.1⟩

/-! The reason strings of reason_fn. -/

theorem reasonFor_some (sc sk : Nat) :
    reasonFor sc (some sk) =
      if sc < sk then "duplicate: lower-priority stage"
      else if sc = sk then "duplicate: same stage, kept first"
      else "duplicate" := rfl

theorem reasonFor_lower_iff (sc sk : Nat) :
    reasonFor sc (some sk) = "duplicate: lower-priority stage" ↔ sc < sk := by
  rw [reasonFor_some]
  by_cases hlt : sc < sk
  · simp [hlt]
  · by_cases heq : sc = sk
    · rw [if_neg hlt, if_pos heq]
      constructor
      · intro hcontra
        exact absurd hcontra (by decide)
      · intro hcontra
        exact absurd hcontra hlt
    · rw [if_neg hlt, if_neg heq]
      constructor
      · intro hcontra
        exact absurd hcontra (by decide)
      · intro hcontra
        exact absurd hcontra hlt

theorem reasonFor_same_iff (sc sk : Nat) :
    reasonFor sc (some sk) = "duplicate: same stage, kept first" ↔ sc = sk := by
  rw [reasonFor_some]
  by_cases hlt : sc < sk
  · rw [if_pos hlt]
    constructor
    · intro hcontra
      exact absurd hcontra (by decide)
    · intro hcontra
      omega
  · by_cases heq : sc = sk
    · simp [hlt, heq]
    · rw [if_neg hlt, if_neg heq]
      constructor
      · intro hcontra
        exact absurd hcontra (by decide)
      · intro hcontra
        exact absurd hcontra heq

theorem reasonFor_le_ne_duplicate {sc sk : Nat} (h : sc ≤ sk) :
    reasonFor sc (some sk) ≠ "duplicate" := by
  rw [reasonFor_some]
  rcases Nat.lt_or_ge sc sk with hlt | hge
  · rw [if_pos hlt]
    decide
  · have heq : sc = sk := by omega
    rw [if_neg (by omega), if_pos heq]
    decide

/-- Every audit row comes from a removed record paired with one of its
merge partners (the no-partner branch of the left join is unreachable:
every removed record shares its merge key with its group survivor). -/
theorem mem_auditRows {cfg : Config} {ds : Dataset} {row : AuditRow}
    (hrow : row ∈ auditRows cfg ds) :
    ∃ i, i < ds.rows.length ∧ toRemoveB cfg ds i = true ∧ dupB cfg ds i = true ∧
      ∃ k, k ∈ matchesOf cfg ds i ∧
        row = { keyVals := tupAt cfg ds i, stage := stageVal (stAt cfg ds i),
                score := scAt cfg ds i,
                stageKept := some (stageVal (stAt cfg ds k)),
                scoreKept := some (scAt cfg ds k),
                reason := reasonFor (scAt cfg ds i) (some (scAt cfg ds k)) } := by
  unfold auditRows at hrow
  rw [List.mem_flatten] at hrow
  obtain ⟨block, hblock, hrowin⟩ := hrow
  rw [List.mem_map] at hblock
  obtain ⟨i, hi, rfl⟩ := hblock
  have hilt : i < ds.rows.length := List.mem_range.1 (List.mem_filter.1 hi).1
  have hrm : toRemoveB cfg ds i = true := (List.mem_filter.1 hi).2
  have hdup : dupB cfg ds i = true := by
    unfold toRemoveB at hrm
    rw [Bool.and_eq_true] at hrm
    exact hrm.1
  obtain ⟨s, hs⟩ := survivor_exists hilt
  have hsmem : s ∈ matchesOf cfg ds i := survivor_mem_matches hdup hs
  refine ⟨i, hilt, hrm, hdup, ?_⟩
  unfold auditRowsFor at hrowin
  cases hm : matchesOf cfg ds i with
  | nil =>
    rw [hm] at hsmem
    simp at hsmem
  | cons j js =>
    rw [hm] at hrowin
    rw [List.mem_map] at hrowin
    obtain ⟨k, hk, rfl⟩ := hrowin
    exact ⟨k, hm ▸ hk, rfl⟩

/-- C4 (amended): on every successful run in which the joined merge-key
strings distinguish distinct duplicate groups (noColl; in particular
whenever there is a single key column), the audit dataset has exactly one
row per removed record, so the deduped row count plus the audit row count
equals the original row count. -/
theorem claim_C4 (ds : Dataset) (cfg : Config) (dd : Dataset) (aud : List AuditRow)
    (h : (deduplicate_records ds (some cfg)).2 = .ok (dd, aud))
    (hnc : noColl cfg ds) :
    aud.length = (removedIdx cfg ds).length ∧
      dd.rows.length + aud.length = ds.rows.length := by
  obtain ⟨h1, h2, h3, hbr⟩ := ok_cases h
  rcases hbr with ⟨h4, hdd, haud⟩ | ⟨h4, -, -, hdd, haud⟩
  · have hrem : removedIdx cfg ds = [] := by
      unfold removedIdx
      apply List.filter_eq_nil_iff.2
      intro i hi
      rw [hasDup_false_noRemove h4 i hi]
      simp
    constructor
    · rw [haud, hrem]
      rfl
    · rw [haud, hdd]
      simp [wRows_length]

  · have hlen1 : aud.length = (removedIdx cfg ds).length := by
      rw [haud]
      unfold auditRows
      apply flatten_length_singletons
      intro i hi
      have hilt : i < ds.rows.length := List.mem_range.1 (List.mem_filter.1 hi).1
      have hrm : toRemoveB cfg ds i = true := (List.mem_filter.1 hi).2
      have hdup : dupB cfg ds i = true := by
        unfold toRemoveB at hrm
        rw [Bool.and_eq_true] at hrm
        exact hrm.1
      obtain ⟨s, hs⟩ := survivor_exists hilt
      have hm := matches_eq_survivor hnc hilt hdup hs
      unfold auditRowsFor
      rw [hm]
      rfl
    refine ⟨hlen1, ?_⟩
    have hddrows : dd.rows = dedupedRows cfg ds := by rw [hdd]
    have hlen2 : dd.rows.length =
        ((List.range ds.rows.length).filter (fun i => !toRemoveB cfg ds i)).length := by
      rw [hddrows]
      unfold dedupedRows
      rw [List.length_map]
    have hsplit :=
      @List.length_eq_length_filter_add ℕ (List.range ds.rows.length) (toRemoveB cfg ds)
    rw [List.length_range] at hsplit
    have hremlen : (removedIdx cfg ds).length =
        ((List.range ds.rows.length).filter (toRemoveB cfg ds)).length := rfl
    omega

/-- C4 counterexample: with keys A, B and the two duplicate groups
("x||y", "z") and ("x", "y||z"), whose joined merge keys coincide, the run
succeeds with 2 removed records but 4 audit rows: deduped (2) plus audit
(4) no longer equals the original row count (4). -/
theorem claim_C4_counterexample :
    (deduplicate_records (dsCollide "x" "y" "z") (some (cfgTwoKeys "F"))).2 =
        .ok (okResult (deduplicate_records (dsCollide "x" "y" "z")
          (some (cfgTwoKeys "F"))).2) ∧
      (okResult (deduplicate_records (dsCollide "x" "y" "z")
        (some (cfgTwoKeys "F"))).2).1.rows.length = 2 ∧
      (okResult (deduplicate_records (dsCollide "x" "y" "z")
        (some (cfgTwoKeys "F"))).2).2.length = 4 ∧
      (dsCollide "x" "y" "z").rows.length = 4 ∧
      (okResult (deduplicate_records (dsCollide "x" "y" "z")
          (some (cfgTwoKeys "F"))).2).1.rows.length +
        (okResult (deduplicate_records (dsCollide "x" "y" "z")
          (some (cfgTwoKeys "F"))).2).2.length ≠
        (dsCollide "x" "y" "z").rows.length := by
  refine ⟨rfl, by decide, by decide, by decide, by decide⟩

/-- Witness for C4 on a single-key duplicate pair: one record is kept, one
audit row is produced, and 1 + 1 = 2. -/
theorem claim_C4_witness :
    (okResult (deduplicate_records dsTie (some cfgKeyOnly)).2).1.rows.length +
        (okResult (deduplicate_records dsTie (some cfgKeyOnly)).2).2.length =
      dsTie.rows.length :=
  (claim_C4 dsTie cfgKeyOnly
    (okResult (deduplicate_records dsTie (some cfgKeyOnly)).2).1
    (okResult (deduplicate_records dsTie (some cfgKeyOnly)).2).2 rfl (by decide)).2

/-- C5 (amended): every audit row carries a survivor score; its reason is
the lower-priority string exactly when the removed score is strictly below
the paired survivor score and the kept-first string exactly when they are
equal; and when the joined merge keys distinguish distinct duplicate
groups, the paired survivor is the group survivor, so the bare "duplicate"
fallback of reason_fn never occurs. -/
theorem claim_C5 (ds : Dataset) (cfg : Config) (dd : Dataset) (aud : List AuditRow)
    (h : (deduplicate_records ds (some cfg)).2 = .ok (dd, aud)) :
    ∀ row ∈ aud, ∃ sk, row.scoreKept = some sk ∧
      (row.reason = "duplicate: lower-priority stage" ↔ row.score < sk) ∧
      (row.reason = "duplicate: same stage, kept first" ↔ row.score = sk) ∧
      (noColl cfg ds → row.reason ≠ "duplicate") := by
  obtain ⟨h1, h2, h3, hbr⟩ := ok_cases h
  rcases hbr with ⟨-, -, haud⟩ | ⟨h4, -, -, -, haud⟩
  · rw [haud]
    intro row hrow
    simp at hrow
  · rw [haud]
    intro row hrow
    obtain ⟨i, hilt, hrm, hdup, k, hk, rfl⟩ := mem_auditRows hrow
    refine ⟨scAt cfg ds k, rfl, reasonFor_lower_iff _ _, reasonFor_same_iff _ _, ?_⟩
    intro hnc
    obtain ⟨s, hs⟩ := survivor_exists hilt
    have hm := matches_eq_survivor hnc hilt hdup hs
    have hks : k = s := by
      rw [hm] at hk
      simpa using hk
    subst hks
    have hle : scAt cfg ds i ≤ scAt cfg ds k :=
      (idxmax_spec hs).2.1 i (mem_grpOf.2 ⟨hilt, rfl⟩)
    exact reasonFor_le_ne_duplicate hle

/-- C5 counterexample: on the colliding duplicate groups ("a||b", "c") and
("a", "b||c"), the merge pairs a removed record with the survivor of the
other group and reason_fn emits the bare "duplicate" string, which the
claim says never occurs. -/
theorem claim_C5_counterexample :
    (deduplicate_records (dsCollide "a" "b" "c") (some (cfgTwoKeys "F"))).2 =
        .ok (okResult (deduplicate_records (dsCollide "a" "b" "c")
          (some (cfgTwoKeys "F"))).2) ∧
      ((okResult (deduplicate_records (dsCollide "a" "b" "c")
          (some (cfgTwoKeys "F"))).2).2).any
        (fun row => decide (row.reason = "duplicate")) = true := by
  refine ⟨rfl, by decide⟩

/-- Witness for C5: on a duplicate pair where only the first record reached
APPLY, the audit row for the removed record scores 0 against the survivor
score 1, with the lower-priority reason. -/
theorem claim_C5_witness :
    ∃ row ∈ (okResult (deduplicate_records dsOneFlag (some cfgOneFlag)).2).2,
      ∃ sk, row.scoreKept = some sk ∧
        (row.reason = "duplicate: lower-priority stage" ↔ row.score < sk) := by
  refine ⟨{ keyVals := [Val.vstr "u"], stage := Val.vnone, score := 0,
            stageKept := some (Val.vstr "APPLY"), scoreKept := some 1,
            reason := "duplicate: lower-priority stage" }, by decide, ?_⟩
  obtain ⟨sk, h1, h2, -, -⟩ := claim_C5 dsOneFlag cfgOneFlag
    (okResult (deduplicate_records dsOneFlag (some cfgOneFlag)).2).1
    (okResult (deduplicate_records dsOneFlag (some cfgOneFlag)).2).2 rfl
    { keyVals := [Val.vstr "u"], stage := Val.vnone, score := 0,
      stageKept := some (Val.vstr "APPLY"), scoreKept := some 1,
      reason := "duplicate: lower-priority stage" } (by decide)
  exact ⟨sk, h1, h2⟩

/-- C6 (amended): the survivor of each duplicate group scores at least as
much as every member of its group; and when the joined merge keys
distinguish distinct duplicate groups, no audit row has the removed score
exceeding its paired survivor score. -/
theorem claim_C6 (ds : Dataset) (cfg : Config) (dd : Dataset) (aud : List AuditRow)
    (h : (deduplicate_records ds (some cfg)).2 = .ok (dd, aud)) :
    (∀ i, i < ds.rows.length → dupB cfg ds i = true →
      ∃ j, survivorOf cfg ds (tupAt cfg ds i) = some j ∧
        ∀ k ∈ grp cfg ds i, scAt cfg ds k ≤ scAt cfg ds j) ∧
    (noColl cfg ds →
      ∀ row ∈ aud, ∃ sk, row.scoreKept = some sk ∧ row.score ≤ sk) := by
  obtain ⟨h1, h2, h3, hbr⟩ := ok_cases h
  constructor
  · intro i hi hdup
    obtain ⟨j, hj⟩ := survivor_exists hi
    exact ⟨j, hj, (idxmax_spec hj).2.1⟩
  · intro hnc row hrow
    rcases hbr with ⟨-, -, haud⟩ | ⟨h4, -, -, -, haud⟩
    · rw [haud] at hrow
      simp at hrow
    · rw [haud] at hrow
      obtain ⟨i, hilt, hrm, hdup, k, hk, rfl⟩ := mem_auditRows hrow
      obtain ⟨s, hs⟩ := survivor_exists hilt
      have hm := matches_eq_survivor hnc hilt hdup hs
      have hks : k = s := by
        rw [hm] at hk
        simpa using hk
      subst hks
      exact ⟨scAt cfg ds k, rfl,
        (idxmax_spec hs).2.1 i (mem_grpOf.2 ⟨hilt, rfl⟩)⟩

/-- C6 counterexample: on the colliding duplicate groups ("p||q", "r") and
("p", "q||r"), an audit row pairs a removed record of score 1 with the
other group survivor of score 0: a removed score strictly above its paired
survivor score, which the claim says cannot occur. -/
theorem claim_C6_counterexample :
    (deduplicate_records (dsCollide "p" "q" "r") (some (cfgTwoKeys "F"))).2 =
        .ok (okResult (deduplicate_records (dsCollide "p" "q" "r")
          (some (cfgTwoKeys "F"))).2) ∧
      ((okResult (deduplicate_records (dsCollide "p" "q" "r")
          (some (cfgTwoKeys "F"))).2).2).any
        (fun row =>
          match row.scoreKept with
          | some sk => decide (sk < row.score)
          | none => false) = true := by
  refine ⟨rfl, by decide⟩

/-- Witness for C6 on a duplicated pair of equal scores: the group has a
survivor whose score bounds every member score. -/
theorem claim_C6_witness :
    ∃ j, survivorOf cfgKeyOnly dsTie2 (tupAt cfgKeyOnly dsTie2 0) = some j ∧
      ∀ k ∈ grp cfgKeyOnly dsTie2 0,
        scAt cfgKeyOnly dsTie2 k ≤ scAt cfgKeyOnly dsTie2 j :=
  (claim_C6 dsTie2 cfgKeyOnly
    (okResult (deduplicate_records dsTie2 (some cfgKeyOnly)).2).1
    (okResult (deduplicate_records dsTie2 (some cfgKeyOnly)).2).2 rfl).1
    0 (by decide) (by decide)

/-- C10 (amended): provided no key column is named STAGE or _score and the
key columns are present in every record, the key values the engine groups
by, the key values of the returned deduped records, and the key values of
the audit rows are exactly the stripped string renderings of the original
values; consequently two records whose key values differ only in type or
in surrounding whitespace fall into the same duplicate group. -/
theorem claim_C10 (ds : Dataset) (cfg : Config) (dd : Dataset) (aud : List AuditRow)
    (h : (deduplicate_records ds (some cfg)).2 = .ok (dd, aud))
    (hkS : "STAGE" ∉ cfg.keys) (hks : "_score" ∉ cfg.keys)
    (hpres : ∀ r ∈ ds.rows, ∀ k ∈ cfg.keys, k ∈ r.map Prod.fst) :
    (∀ i, i < ds.rows.length →
      tupAt cfg ds i = cfg.keys.map
        (fun k => .vstr (pyStrip (pyStr (rowGet (ds.rows.getD i []) k))))) ∧
    (∀ i, i < ds.rows.length → ∀ k ∈ cfg.keys,
      rowGet (outputRow cfg.keys (ds.rows.getD i [])) k =
        .vstr (pyStrip (pyStr (rowGet (ds.rows.getD i []) k)))) ∧
    dd.rows = ((List.range ds.rows.length).filter (fun i => !toRemoveB cfg ds i)).map
        (fun i => outputRow cfg.keys (ds.rows.getD i [])) ∧
    (∀ row ∈ aud, ∃ i, i < ds.rows.length ∧ toRemoveB cfg ds i = true ∧
        row.keyVals = tupAt cfg ds i) ∧
    (∀ i, i < ds.rows.length → ∀ j, j < ds.rows.length →
      (tupAt cfg ds i = tupAt cfg ds j ↔
        cfg.keys.map (fun k => pyStrip (pyStr (rowGet (ds.rows.getD i []) k))) =
          cfg.keys.map (fun k => pyStrip (pyStr (rowGet (ds.rows.getD j []) k))))) := by
  obtain ⟨h1, h2, h3, hbr⟩ := ok_cases h
  have htup : ∀ i, i < ds.rows.length →
      tupAt cfg ds i = cfg.keys.map
        (fun k => .vstr (pyStrip (pyStr (rowGet (ds.rows.getD i []) k)))) := by
    intro i hi
    rw [tupAt_eq hi, wRows_getD hi]
    apply List.map_congr_left
    intro k hkmem
    have hc1 : k ≠ "STAGE" := fun heq => hkS (heq ▸ hkmem)
    have hc2 : k ≠ "_score" := fun heq => hks (heq ▸ hkmem)
    rw [rowGet_stagedRow_ne hc1 hc2]
    exact rowGet_normRow_mem hkmem _
      (hpres _ (getD_mem_of_lt hi []) k hkmem)
  refine ⟨htup, ?_, ?_, ?_, ?_⟩
  · intro i hi k hkmem
    have hc1 : k ≠ "STAGE" := fun heq => hkS (heq ▸ hkmem)
    have hc2 : k ≠ "_score" := fun heq => hks (heq ▸ hkmem)
    unfold outputRow
    rw [rowGet_dropScoring hc1 hc2]
    exact rowGet_normRow_mem hkmem _
      (hpres _ (getD_mem_of_lt hi []) k hkmem)
  · rcases hbr with ⟨h4, hdd, -⟩ | ⟨h4, -, -, hdd, -⟩
    · rw [hdd]
      exact noDup_rows_eq_output cfg ds h4
    · rw [hdd]
      exact dedupedRows_eq_output cfg ds
  · rcases hbr with ⟨-, -, haud⟩ | ⟨h4, -, -, -, haud⟩
    · rw [haud]
      intro row hrow
      simp at hrow
    · rw [haud]
      intro row hrow
      obtain ⟨i, hilt, hrm, -, k, -, rfl⟩ := mem_auditRows hrow
      exact ⟨i, hilt, hrm, rfl⟩
  · intro i hi j hj
    rw [htup i hi, htup j hj]
    have hcomp : ∀ m, m < ds.rows.length →
        cfg.keys.map (fun k => Val.vstr (pyStrip (pyStr (rowGet (ds.rows.getD m []) k)))) =
          (cfg.keys.map (fun k => pyStrip (pyStr (rowGet (ds.rows.getD m []) k)))).map
            Val.vstr := by
      intro m hm
      rw [List.map_map]
      rfl
    rw [hcomp i hi, hcomp j hj]
    constructor
    · intro heq
      exact List.map_injective_iff.2 (fun a b hab => Val.vstr.inj hab) heq
    · intro heq
      rw [heq]

/-- C10 counterexample: with the key column named STAGE, the derived-stage
assignment overwrites the key before grouping and the scoring drop removes
it from the output: the returned deduped record has no STAGE value at all,
never mind the stripped string of the original. -/
theorem claim_C10_counterexample :
    (deduplicate_records dsStageKey (some cfgStageKey)).2 =
        .ok (okResult (deduplicate_records dsStageKey (some cfgStageKey)).2) ∧
      rowGet ((okResult (deduplicate_records dsStageKey
          (some cfgStageKey)).2).1.rows.getD 0 []) "STAGE" ≠
        .vstr (pyStrip (pyStr (rowGet (dsStageKey.rows.getD 0 []) "STAGE"))) := by
  refine ⟨rfl, by decide⟩

/-- Witness for C10: the integer key 1 and the whitespace-padded string
key " 1 " normalize to the same string and fall into the same duplicate
group. -/
theorem claim_C10_witness :
    tupAt cfgKeyOnly dsIntStr 0 = tupAt cfgKeyOnly dsIntStr 1 := by
  have h := claim_C10 dsIntStr cfgKeyOnly
    (okResult (deduplicate_records dsIntStr (some cfgKeyOnly)).2).1
    (okResult (deduplicate_records dsIntStr (some cfgKeyOnly)).2).2 rfl
    (by decide) (by decide) (by decide)
  exact (h.2.2.2.2 0 (by decide) 1 (by decide)).mpr (by decide)

end Dedup
